import Mathlib

/-!
# Verification of the AsBrand BNPL/EMI core

Shallow embedding of the EMI installment lifecycle and penalty-accrual engine:

* `src/unnamed/part_004` — `EmiPlan` schema and `calculateEMI`;
* `src/unnamed/part_005` — `EmiApplication` / installment schemas and
  `generateSchedule`;
* `src/routes/emi.js` — the `/apply` and `/pay/:applicationId/:installmentNumber`
  handlers;
* `src/model/penaltyLedger.js` — the `PenaltyLedger` schema and
  `calculatePenalty`;
* `src/cron/paymentReminder.js` — the three daily batch passes.

Conventions: JavaScript `Date` values manipulated with calendar operations
(`setMonth` / `setDate`) are embedded as `JDate` triples (year, 0-based month,
day-of-month), mirroring JS overflow normalisation.  Timestamps manipulated
arithmetically by the cron job (millisecond subtraction, `Math.floor` division
by `24*60*60*1000`) are embedded as integers in milliseconds (`DAY` = one day);
the deployment timezone (IST) has no daylight-saving shifts, so adding
`gracePeriodDays` calendar days to a timestamp is adding `gracePeriodDays * DAY`
milliseconds.  JS `Math.ceil` / `Math.floor` / `Math.round` on the exact values
become `Int.ceil`, `Int.fdiv` and `jsRound` over `ℚ`/`ℤ`.
-/

/-- JavaScript `Math.round`: round half toward positive infinity. -/
def jsRound (q : ℚ) : ℤ := ⌊q + 1/2⌋

/-- One day in milliseconds, the divisor `24 * 60 * 60 * 1000` used by the cron
job. -/
def DAY : ℤ := 24 * 60 * 60 * 1000

/-- 9:00 AM as a millisecond offset into the day — the cron job's scheduled
daily run time (9:00 IST). -/
def NINE_AM : ℤ := 9 * 60 * 60 * 1000

/-- Status enum of `emiApplicationSchema.status` (src/unnamed/part_005). -/
inductive AppStatus
  | pending
  | approved
  | rejected
  | active
  | completed
  | defaulted
  deriving DecidableEq, Repr

/-- Status enum of `installmentSchema.status` (src/unnamed/part_005). -/
inductive InstStatus
  | pending
  | paid
  | overdue
  | failed
  deriving DecidableEq, Repr

/-- Status enum of `penaltyLedgerSchema.status` (src/model/penaltyLedger.js). -/
inductive LStatus
  | pending
  | grace_period
  | overdue
  | paid
  | waived
  deriving DecidableEq, Repr

/-- Notification milestone types of `penaltyLedgerSchema.notifications.type`
(src/model/penaltyLedger.js) and `NOTIFICATION_TEMPLATES`
(src/cron/paymentReminder.js). -/
inductive NType
  | reminder_3_days
  | due_today
  | payment_failed
  | overdue_1_day
  | overdue_grace_ended
  | penalty_applied
  deriving DecidableEq, Repr

/-! ## Calendar dates (the JS `Date` calendar view)

`generateSchedule` manipulates dates with `setMonth`/`setDate`, whose JS
semantics normalise out-of-range fields (e.g. Feb 31 becomes Mar 3).  A `JDate`
is a JS date seen through `getFullYear`/`getMonth`/`getDate`; month is 0-based
as in JS.  All dates the code constructs are canonical (day within the month),
so a single overflow step suffices in the normalisations below. -/

structure JDate where
  year : ℤ
  month : ℤ
  day : ℤ
  deriving DecidableEq, Repr

/-- Gregorian leap-year rule (what JS `Date` implements). -/
def isLeap (y : ℤ) : Bool := (y % 4 == 0 && y % 100 != 0) || y % 400 == 0

/-- Days in 0-based month `m` of year `y`. -/
def daysInMonth (y m : ℤ) : ℤ :=
  if m = 1 then (if isLeap y then 29 else 28)
  else if m = 3 ∨ m = 5 ∨ m = 8 ∨ m = 10 then 30
  else 31

/-- Embeds JS `date.setMonth(m)`: the year absorbs `m / 12` (floor), and a
day-of-month exceeding the target month's length overflows into the following
month (one step suffices for canonical inputs, where day ≤ 31). -/
def JDate.setMonth (d : JDate) (m : ℤ) : JDate :=
  let y := d.year + m.fdiv 12
  let m' := m.emod 12
  if d.day > daysInMonth y m' then
    let day' := d.day - daysInMonth y m'
    if m' = 11 then ⟨y + 1, 0, day'⟩ else ⟨y, m' + 1, day'⟩
  else ⟨y, m', d.day⟩

/-- Embeds JS `date.setDate(n)` for in-range `n` (the code only uses `setDate(5)`). -/
def JDate.setDate (d : JDate) (n : ℤ) : JDate := ⟨d.year, d.month, n⟩

/-! ## EmiPlan and `calculateEMI` (src/unnamed/part_004)

`applicableCategories` and `bankPartners` are display metadata never read by
the EMI core and are omitted.  Amounts and rates are exact rationals. -/

structure EmiPlan where
  name : String
  tenure : ℕ
  interestRate : ℚ
  processingFee : ℚ
  minOrderAmount : ℚ
  maxOrderAmount : Option ℚ
  isActive : Bool
  deriving DecidableEq, Repr

/-- Embeds `emiPlanSchema.methods.calculateEMI` (src/unnamed/part_004 lines 119-132):
monthly rate `R = interestRate / 12 / 100`; if `R = 0` return `ceil(P / N)`,
else the reducing-balance annuity formula, rounded up. -/
def EmiPlan.calculateEMI (plan : EmiPlan) (principal : ℚ) : ℤ :=
  let P := principal
  let R := plan.interestRate / 12 / 100
  let N := plan.tenure
  if R = 0 then ⌈P / N⌉
  else ⌈P * R * (1 + R) ^ N / ((1 + R) ^ N - 1)⌉

/-! ## Installments and EmiApplication (src/unnamed/part_005) -/

structure Installment where
  installmentNumber : ℕ
  dueDate : JDate
  amount : ℤ
  status : InstStatus
  paidDate : Option JDate
  transactionId : Option String
  paymentMethod : Option String
  deriving DecidableEq, Repr

structure EmiApplication where
  id : ℕ
  userId : ℕ
  orderId : ℕ
  emiPlanId : ℕ
  principalAmount : ℚ
  totalInterest : ℚ
  processingFee : ℚ
  totalAmount : ℚ
  tenure : ℕ
  monthlyEmi : ℤ
  status : AppStatus
  installments : List Installment
  paidInstallments : ℤ
  remainingInstallments : ℤ
  nextDueDate : Option JDate
  approvedAt : Option JDate
  completedAt : Option JDate
  deriving DecidableEq, Repr

/-- One loop iteration of `generateSchedule`: the due date of installment `i`,
computed from a fresh copy of `startDate` by `setMonth(month + i)` then
`setDate(5)`. -/
def dueDateOf (startDate : JDate) (i : ℕ) : JDate :=
  (startDate.setMonth (startDate.month + i)).setDate 5

/-- Embeds `emiApplicationSchema.methods.generateSchedule`
(src/unnamed/part_005 lines 87-109): build `tenure` pending installments due on
the 5th, one `setMonth` step apart, then overwrite `installments`, set
`remainingInstallments := tenure` and `nextDueDate` to the first due date.
`startDate` is `new Date()` at the call.  The JS `installments[0].dueDate` read
presumes a nonempty schedule (plan tenures are 3..24); `head?` renders it,
agreeing with the source for every positive tenure. -/
def EmiApplication.generateSchedule (app : EmiApplication) (startDate : JDate) :
    EmiApplication :=
  let installments : List Installment :=
    (List.range app.tenure).map fun k =>
      { installmentNumber := k + 1
        dueDate := dueDateOf startDate (k + 1)
        amount := app.monthlyEmi
        status := .pending
        paidDate := none
        transactionId := none
        paymentMethod := none }
  { app with
      installments := installments
      remainingInstallments := (app.tenure : ℤ)
      nextDueDate := (installments.head?).map (·.dueDate) }

/-! ## UserKyc (src/model/userKyc.js) — only the fields the EMI routes read -/

inductive KycStatus
  | pending
  | under_review
  | verified
  | rejected
  deriving DecidableEq, Repr

structure UserKyc where
  userId : ℕ
  verificationStatus : KycStatus
  creditLimit : ℚ
  deriving DecidableEq, Repr

/-! ## `POST /emi/apply` (src/routes/emi.js lines 45-105)

The handler reads the caller's KYC record and the chosen plan, then runs its
checks in source order.  Each early `return res.status(...)` is an `Except`
error — nothing is persisted on those paths.  On success it builds the
application (status hard-coded to `'approved'`), generates the schedule,
stamps `approvedAt` and saves. -/

inductive ApplyErr
  | kycNotVerified
  | creditLimitExceeded
  | planNotFound
  deriving DecidableEq, Repr

def applyForEmi (freshId userId orderId emiPlanId : ℕ) (kyc : Option UserKyc)
    (plan? : Option EmiPlan) (principalAmount : ℚ) (now : JDate) :
    Except ApplyErr EmiApplication :=
  match kyc with
  | none => .error .kycNotVerified
  | some k =>
    if k.verificationStatus ≠ .verified then .error .kycNotVerified
    else if principalAmount > k.creditLimit then .error .creditLimitExceeded
    else match plan? with
      | none => .error .planNotFound
      | some plan =>
        let monthlyEmi := plan.calculateEMI principalAmount
        let totalAmount : ℚ := (monthlyEmi : ℚ) * plan.tenure
        let totalInterest := totalAmount - principalAmount
        let application : EmiApplication :=
          { id := freshId
            userId := userId
            orderId := orderId
            emiPlanId := emiPlanId
            principalAmount := principalAmount
            totalInterest := totalInterest
            processingFee := plan.processingFee
            totalAmount := totalAmount + plan.processingFee
            tenure := plan.tenure
            monthlyEmi := monthlyEmi
            status := .approved
            installments := []
            paidInstallments := 0
            remainingInstallments := 0
            nextDueDate := none
            approvedAt := none
            completedAt := none }
        let application := application.generateSchedule now
        .ok { application with approvedAt := some now }

/-! ## `POST /emi/pay/:applicationId/:installmentNumber`
(src/routes/emi.js lines 116-178) -/

inductive PayErr
  | applicationNotFound
  | installmentNotFound
  | alreadyPaid
  deriving DecidableEq, Repr

/-- Replace the first element satisfying `p` by `f` of it (a JS `Array.find`
followed by in-place mutation of the found object). -/
def updateFirst (p : α → Bool) (f : α → α) : List α → List α
  | [] => []
  | x :: xs => if p x then f x :: xs else x :: updateFirst p f xs

/-- The `/pay` handler's effect on the matched application.  It mutates the
found installment, bumps the counters, recomputes `nextDueDate` from the first
`pending` installment, and flips to `completed` when the remaining counter
reaches zero.  It never touches the `PenaltyLedger` collection. -/
def payInstallment (app : EmiApplication) (installmentNumber : ℕ) (now : JDate)
    (transactionId paymentMethod : String) : Except PayErr EmiApplication :=
  match app.installments.find? (fun i => i.installmentNumber = installmentNumber) with
  | none => .error .installmentNotFound
  | some installment =>
    if installment.status = .paid then .error .alreadyPaid
    else
      let installments := updateFirst
        (fun i => i.installmentNumber = installmentNumber)
        (fun i => { i with
            status := .paid
            paidDate := some now
            transactionId := some transactionId
            paymentMethod := some paymentMethod })
        app.installments
      let app := { app with
          installments := installments
          paidInstallments := app.paidInstallments + 1
          remainingInstallments := app.remainingInstallments - 1 }
      let nextPending := app.installments.find? (fun i => i.status = .pending)
      let app := { app with nextDueDate := nextPending.map (·.dueDate) }
      if app.remainingInstallments == 0 then
        .ok { app with status := .completed, completedAt := some now }
      else .ok app

/-! ## PenaltyLedger (src/model/penaltyLedger.js)

Timestamps are integers in milliseconds.  Schema defaults:
`penaltyRate = 0.1` (%/day), `daysOverdue = 0`, `penaltyAmount = 0`,
`gracePeriodDays = 3`, `isInGracePeriod = true`, `status = 'pending'`. -/

structure SentNotif where
  ntype : NType
  sentAt : ℤ
  channel : String
  status : String
  deriving DecidableEq, Repr

structure LedgerEntry where
  emiApplicationId : ℕ
  userId : ℕ
  installmentNo : ℤ
  originalAmount : ℤ
  dueDate : ℤ
  missedDate : Option ℤ
  penaltyRate : ℚ
  daysOverdue : ℤ
  penaltyAmount : ℤ
  totalPayable : Option ℤ
  gracePeriodDays : ℤ
  isInGracePeriod : Bool
  status : LStatus
  paidAmount : Option ℤ
  paidDate : Option ℤ
  paymentReference : Option String
  isWaived : Bool
  notifications : List SentNotif
  deriving DecidableEq, Repr

/-- Embeds a `new PenaltyLedger({...})` call as built by `processUpcomingReminders`
(src/cron/paymentReminder.js lines 127-135), all other fields at their schema
defaults. -/
def mkPenaltyLedger (emiApplicationId userId : ℕ) (installmentNo : ℤ)
    (originalAmount dueDate : ℤ) : LedgerEntry :=
  { emiApplicationId := emiApplicationId
    userId := userId
    installmentNo := installmentNo
    originalAmount := originalAmount
    dueDate := dueDate
    missedDate := none
    penaltyRate := 1/10
    daysOverdue := 0
    penaltyAmount := 0
    totalPayable := none
    gracePeriodDays := 3
    isInGracePeriod := true
    status := .pending
    paidAmount := none
    paidDate := none
    paymentReference := none
    isWaived := false
    notifications := [] }

/-- Embeds `ledger.notifications.some(n => n.type === t)`. -/
def hasNotif (e : LedgerEntry) (t : NType) : Bool :=
  e.notifications.any fun n => n.ntype = t

/-- Embeds `penaltyLedgerSchema.methods.calculatePenalty`
(src/model/penaltyLedger.js lines 126-152).  `now` is `new Date()` at the
call.  Grace period end is `dueDate` plus `gracePeriodDays` calendar days
(`setDate(getDate() + gracePeriodDays)`), i.e. `gracePeriodDays * DAY`
milliseconds in the DST-free deployment timezone.  The JS return value (a
number) is ignored by every caller, so only the mutated entry is returned. -/
def calculatePenalty (now : ℤ) (e : LedgerEntry) : LedgerEntry :=
  if e.status = .paid ∨ e.status = .waived then e
  else
    let gracePeriodEnd := e.dueDate + e.gracePeriodDays * DAY
    if now ≤ gracePeriodEnd then
      { e with isInGracePeriod := true, daysOverdue := 0, penaltyAmount := 0 }
    else
      let d := (now - gracePeriodEnd).fdiv DAY
      let p := jsRound ((e.originalAmount : ℚ) * (e.penaltyRate / 100) * (d : ℚ))
      { e with
          isInGracePeriod := false
          daysOverdue := d
          penaltyAmount := p
          totalPayable := some (e.originalAmount + p) }

/-- Embeds the push of a notification record: `ledger.notifications.push(...)`
with channel `'push'` and status `'sent'`. -/
def pushNotif (e : LedgerEntry) (t : NType) (now : ℤ) : LedgerEntry :=
  { e with notifications := e.notifications ++ [⟨t, now, "push", "sent"⟩] }

/-- The `PenaltyLedger.find` filter of `processOverdueEmis`
(src/cron/paymentReminder.js lines 204-207): `dueDate < today` and status in
`{pending, grace_period, overdue}`. -/
def ledgerSelected (today : ℤ) (e : LedgerEntry) : Bool :=
  (e.dueDate < today : Bool) &&
    (e.status = .pending || e.status = .grace_period || e.status = .overdue)

/-- Result of one iteration of the `processOverdueEmis` loop body on a single
ledger entry: the mutated entry (as `ledger.save()` persists it), the
notification types handed to `sendNotification`, and whether the owning
application was force-updated to `defaulted`. -/
structure OverdueStep where
  entry : LedgerEntry
  emitted : List NType
  defaulted : Bool
  deriving DecidableEq, Repr

/-- Loop body of `processOverdueEmis` (src/cron/paymentReminder.js
lines 211-266).  `today` is `new Date()` truncated by `setHours(0,0,0,0)`;
`now` is the untruncated clock read used by `calculatePenalty` and the
notification timestamps.  Written as three sequential conditional blocks, as
in the source. -/
def processOverdueEntry (today now : ℤ) (e : LedgerEntry) : OverdueStep :=
  let daysSinceDue := (today - e.dueDate).fdiv DAY
  -- Day 1 after due date
  let s1 : OverdueStep :=
    if daysSinceDue = 1 ∧ hasNotif e .overdue_1_day = false then
      { entry := pushNotif { e with status := .grace_period } .overdue_1_day now
        emitted := [.overdue_1_day]
        defaulted := false }
    else { entry := e, emitted := [], defaulted := false }
  let e1 := s1.entry
  -- Day 3+ (grace period ends)
  let s2 : OverdueStep :=
    if 3 ≤ daysSinceDue ∧ e1.isInGracePeriod = true then
      let e2 := calculatePenalty now
        { e1 with isInGracePeriod := false, status := .overdue,
                  missedDate := some e.dueDate }
      { entry := pushNotif e2 .overdue_grace_ended now
        emitted := s1.emitted ++ [.overdue_grace_ended]
        defaulted := true }
    else { s1 with entry := e1 }
  let e2 := s2.entry
  -- Update penalty daily for overdue entries
  let e3 := if e2.isInGracePeriod = false then calculatePenalty now e2 else e2
  { s2 with entry := e3 }

/-! ## The three daily batch passes (src/cron/paymentReminder.js)

The cron's view of an `emiapplications` document (the fields its queries and
loop bodies read); its `Date` values are millisecond timestamps here. -/

structure EmiAppDoc where
  id : ℕ
  userId : ℕ
  status : AppStatus
  nextDueDate : Option ℤ
  monthlyEmi : ℤ
  paidInstallments : ℤ
  deriving DecidableEq, Repr

/-- Filter of `processUpcomingReminders` (lines 100-106): status `'active'`
and `nextDueDate` within the calendar day three days from today. -/
def upcomingSelected (today : ℤ) (a : EmiAppDoc) : Bool :=
  (a.status = .active : Bool) &&
    match a.nextDueDate with
    | some d => (today + 3 * DAY ≤ d : Bool) && (d < today + 4 * DAY : Bool)
    | none => false

/-- Filter of `processDueDateReminders` (lines 162-168): status `'active'`
and `nextDueDate` within today. -/
def dueTodaySelected (today : ℤ) (a : EmiAppDoc) : Bool :=
  (a.status = .active : Bool) &&
    match a.nextDueDate with
    | some d => (today ≤ d : Bool) && (d < today + DAY : Bool)
    | none => false

/-- The `{emiApplicationId, dueDate}` lookup key used by the passes'
`PenaltyLedger.findOne` calls. -/
def ledgerKeyMatch (appId : ℕ) (due : ℤ) (l : LedgerEntry) : Bool :=
  (l.emiApplicationId = appId : Bool) && (l.dueDate = due : Bool)

/-- Outcome of one batch pass over the datastore.  `emitted` records every
`sendNotification` invocation `(userId, type)`; `notifRecords` the
`Notification` documents that invocation actually saved (`sendNotification`
swallows its own failures — a sink failure loses the record but never
throws); `appUpdates` the `EmiApplication.findByIdAndUpdate` writes;
`error = some msg` when a `ledger.save()` threw, which aborts the pass
leaving the remaining entries untouched. -/
structure PassResult where
  ledgers : List LedgerEntry
  emitted : List (ℕ × NType)
  notifRecords : List (ℕ × NType)
  appUpdates : List (ℕ × AppStatus)
  error : Option String
  deriving DecidableEq, Repr

/-- Embeds `sendNotification(userId, type, data)` (lines 53-87): builds and saves a
`Notification` document inside its own try/catch, so it produces a record
exactly when the sink succeeds and never propagates an error. -/
def sendNotifRecords (sink : ℕ → NType → Bool) (u : ℕ) (t : NType) :
    List (ℕ × NType) :=
  if sink u t then [(u, t)] else []

/-- Loop of `processUpcomingReminders` (lines 110-150) over the selected
applications.  Per app: skip if a `reminder_3_days` notification is already
logged for the `(application, dueDate)` key; otherwise find-or-create the
ledger entry, send the reminder, push it into the entry's history and save
(`saveOk` false models the save throwing, which aborts the loop). -/
def goUpcoming (now : ℤ) (sink : ℕ → NType → Bool) (saveOk : LedgerEntry → Bool) :
    List EmiAppDoc → List LedgerEntry → PassResult
  | [], ledgers => ⟨ledgers, [], [], [], none⟩
  | a :: rest, ledgers =>
    match a.nextDueDate with
    | none => goUpcoming now sink saveOk rest ledgers
    | some d =>
      if (ledgers.find? fun l => ledgerKeyMatch a.id d l && hasNotif l .reminder_3_days).isSome
      then goUpcoming now sink saveOk rest ledgers
      else
        let ledger := match ledgers.find? (ledgerKeyMatch a.id d) with
          | some l => l
          | none => mkPenaltyLedger a.id a.userId (a.paidInstallments + 1) a.monthlyEmi d
        let emit := [(a.userId, NType.reminder_3_days)]
        let recs := sendNotifRecords sink a.userId .reminder_3_days
        let ledger := pushNotif ledger .reminder_3_days now
        if saveOk ledger then
          let ledgers' :=
            if (ledgers.find? (ledgerKeyMatch a.id d)).isSome
            then updateFirst (ledgerKeyMatch a.id d) (fun _ => ledger) ledgers
            else ledgers ++ [ledger]
          let r := goUpcoming now sink saveOk rest ledgers'
          ⟨r.ledgers, emit ++ r.emitted, recs ++ r.notifRecords, r.appUpdates, r.error⟩
        else ⟨ledgers, emit, recs, [], some ("ledger save failed")⟩

/-- Embeds `processUpcomingReminders` (lines 92-151). -/
def processUpcomingReminders (today now : ℤ) (sink : ℕ → NType → Bool)
    (saveOk : LedgerEntry → Bool) (apps : List EmiAppDoc)
    (ledgers : List LedgerEntry) : PassResult :=
  goUpcoming now sink saveOk (apps.filter (upcomingSelected today)) ledgers

/-- Loop of `processDueDateReminders` (lines 172-193).  Per app: look up the
ledger entry for `(application, nextDueDate)`; skip when it exists and already
logs a `due_today`; otherwise send the notification, and only when an entry
exists push and save it — with no entry nothing records the send. -/
def goDueToday (now : ℤ) (sink : ℕ → NType → Bool) (saveOk : LedgerEntry → Bool) :
    List EmiAppDoc → List LedgerEntry → PassResult
  | [], ledgers => ⟨ledgers, [], [], [], none⟩
  | a :: rest, ledgers =>
    match a.nextDueDate with
    | none => goDueToday now sink saveOk rest ledgers
    | some d =>
      let ledger? := ledgers.find? (ledgerKeyMatch a.id d)
      if (match ledger? with | some l => hasNotif l .due_today | none => false)
      then goDueToday now sink saveOk rest ledgers
      else
        let emit := [(a.userId, NType.due_today)]
        let recs := sendNotifRecords sink a.userId .due_today
        match ledger? with
        | some l =>
          let l' := pushNotif l .due_today now
          if saveOk l' then
            let r := goDueToday now sink saveOk rest
              (updateFirst (ledgerKeyMatch a.id d) (fun _ => l') ledgers)
            ⟨r.ledgers, emit ++ r.emitted, recs ++ r.notifRecords, r.appUpdates, r.error⟩
          else ⟨ledgers, emit, recs, [], some ("ledger save failed")⟩
        | none =>
          let r := goDueToday now sink saveOk rest ledgers
          ⟨r.ledgers, emit ++ r.emitted, recs ++ r.notifRecords, r.appUpdates, r.error⟩

/-- Embeds `processDueDateReminders` (lines 156-194). -/
def processDueDateReminders (today now : ℤ) (sink : ℕ → NType → Bool)
    (saveOk : LedgerEntry → Bool) (apps : List EmiAppDoc)
    (ledgers : List LedgerEntry) : PassResult :=
  goDueToday now sink saveOk (apps.filter (dueTodaySelected today)) ledgers

/-- Loop of `processOverdueEmis` (lines 211-266) over the ledger collection;
unselected entries pass through untouched (they are simply not returned by the
`find`).  Notifications and the `defaulted` application update happen before
`ledger.save()`, so they survive a save failure, but the entry itself and all
later entries keep their stored state. -/
def goOverdue (today now : ℤ) (sink : ℕ → NType → Bool)
    (saveOk : LedgerEntry → Bool) : List LedgerEntry → PassResult
  | [] => ⟨[], [], [], [], none⟩
  | e :: rest =>
    if ledgerSelected today e then
      let st := processOverdueEntry today now e
      let emit := st.emitted.map fun t => (e.userId, t)
      let recs := emit.filter fun p => sink p.1 p.2
      let upds : List (ℕ × AppStatus) :=
        if st.defaulted then [(e.emiApplicationId, .defaulted)] else []
      if saveOk st.entry then
        let r := goOverdue today now sink saveOk rest
        ⟨st.entry :: r.ledgers, emit ++ r.emitted, recs ++ r.notifRecords,
          upds ++ r.appUpdates, r.error⟩
      else ⟨e :: rest, emit, recs, upds, some ("ledger save failed")⟩
    else
      let r := goOverdue today now sink saveOk rest
      ⟨e :: r.ledgers, r.emitted, r.notifRecords, r.appUpdates, r.error⟩

/-- Embeds `processOverdueEmis` (lines 199-267). -/
def processOverdueEmis (today now : ℤ) (sink : ℕ → NType → Bool)
    (saveOk : LedgerEntry → Bool) (ledgers : List LedgerEntry) : PassResult :=
  goOverdue today now sink saveOk ledgers

/-- Outcome of `runPaymentReminderJob` (lines 272-286): the three passes run
in sequence inside one try/catch; the first pass error skips the remaining
passes and is logged, never rethrown. -/
structure JobRun where
  ledgers : List LedgerEntry
  emitted : List (ℕ × NType)
  notifRecords : List (ℕ × NType)
  appUpdates : List (ℕ × AppStatus)
  outcome : Option String
  deriving DecidableEq, Repr

/-- Embeds `runPaymentReminderJob` (lines 272-286).  `outcome = none` is the
"completed" log line; `outcome = some msg` the "job failed" log line of the
catch block.  Either way the function returns normally. -/
def runPaymentReminderJob (today now : ℤ) (sink : ℕ → NType → Bool)
    (saveOk : LedgerEntry → Bool) (apps : List EmiAppDoc)
    (ledgers : List LedgerEntry) : JobRun :=
  let r1 := processUpcomingReminders today now sink saveOk apps ledgers
  match r1.error with
  | some msg => ⟨r1.ledgers, r1.emitted, r1.notifRecords, r1.appUpdates, some msg⟩
  | none =>
    let r2 := processDueDateReminders today now sink saveOk apps r1.ledgers
    match r2.error with
    | some msg =>
      ⟨r2.ledgers, r1.emitted ++ r2.emitted, r1.notifRecords ++ r2.notifRecords,
        r1.appUpdates ++ r2.appUpdates, some msg⟩
    | none =>
      let r3 := processOverdueEmis today now sink saveOk r2.ledgers
      ⟨r3.ledgers, r1.emitted ++ r2.emitted ++ r3.emitted,
        r1.notifRecords ++ r2.notifRecords ++ r3.notifRecords,
        r1.appUpdates ++ r2.appUpdates ++ r3.appUpdates, r3.error⟩

/-! ## Datastore view and the pay endpoint's full effect -/

/-- The two collections the EMI core reads and writes. -/
structure Db where
  apps : List EmiApplication
  ledgers : List LedgerEntry
  deriving DecidableEq, Repr

/-- Embeds `POST /emi/pay/:applicationId/:installmentNumber` (src/routes/emi.js
lines 116-178) acting on the datastore: find the caller's application,
run `payInstallment`, save the application.  The handler contains no
`PenaltyLedger` access at all. -/
def payEndpoint (db : Db) (userId applicationId installmentNumber : ℕ)
    (now : JDate) (transactionId paymentMethod : String) :
    Db × Except PayErr EmiApplication :=
  match db.apps.find? (fun a => (a.id = applicationId : Bool) && (a.userId = userId : Bool)) with
  | none => (db, .error .applicationNotFound)
  | some app =>
    match payInstallment app installmentNumber now transactionId paymentMethod with
    | .error e => (db, .error e)
    | .ok app' =>
      ({ db with
          apps := updateFirst
            (fun a => (a.id = applicationId : Bool) && (a.userId = userId : Bool))
            (fun _ => app') db.apps },
        .ok app')

/-- One day of the overdue pass as seen by a single ledger entry: the cron
fires once on calendar day `X` (`today = X·DAY`, the 9:00 run giving
`now = X·DAY + NINE_AM`), and the entry is processed iff the
`processOverdueEmis` query selects it. -/
def dailyOverdue (X : ℤ) (e : LedgerEntry) : LedgerEntry :=
  if ledgerSelected (X * DAY) e then
    (processOverdueEntry (X * DAY) (X * DAY + NINE_AM) e).entry
  else e

/-! ## Concrete fixtures used by the closed theorems below -/

/-- An approved application with one paid and one pending installment. -/
def paidTwoApp : EmiApplication :=
  { id := 1, userId := 7, orderId := 2, emiPlanId := 3,
    principalAmount := 1000, totalInterest := 0, processingFee := 0,
    totalAmount := 1000, tenure := 2, monthlyEmi := 500,
    status := .approved,
    installments :=
      [⟨1, ⟨2025, 1, 5⟩, 500, .paid, some ⟨2025, 1, 4⟩, some ("tx1"), some ("upi")⟩,
       ⟨2, ⟨2025, 2, 5⟩, 500, .pending, none, none, none⟩],
    paidInstallments := 1, remainingInstallments := 1,
    nextDueDate := some ⟨2025, 2, 5⟩, approvedAt := none,
    completedAt := none }

/-- A verified KYC record with a large credit limit. -/
def verifiedKyc : UserKyc := ⟨7, .verified, 1000000⟩

/-- An active no-cost plan with `minOrderAmount = 1000`. -/
def boundedPlan : EmiPlan := ⟨"3 Month No-Cost EMI", 3, 0, 0, 1000, some 2000, true⟩

/-- An application with a single pending installment of 1000. -/
def oneInstApp : EmiApplication :=
  { id := 1, userId := 7, orderId := 2, emiPlanId := 3,
    principalAmount := 1000, totalInterest := 0, processingFee := 0,
    totalAmount := 1000, tenure := 1, monthlyEmi := 1000,
    status := .approved,
    installments := [⟨1, ⟨2025, 1, 5⟩, 1000, .pending, none, none, none⟩],
    paidInstallments := 0, remainingInstallments := 1,
    nextDueDate := some ⟨2025, 1, 5⟩, approvedAt := none, completedAt := none }

/-- The penalty-ledger entry matching `oneInstApp`'s installment 1, in
`grace_period` with a day-1 notification logged; due at timestamp 0. -/
def graceLedger : LedgerEntry :=
  { mkPenaltyLedger 1 7 1 1000 0 with
      status := .grace_period
      notifications := [⟨.overdue_1_day, NINE_AM, "push", "sent"⟩] }

/-- The ledger entry as the upcoming pass creates it for a due date `d·DAY`
(midnight-aligned day `d`): schema defaults plus the logged
`reminder_3_days`. -/
def c2Entry (ap u : ℕ) (k a d t0 : ℤ) : LedgerEntry :=
  pushNotif (mkPenaltyLedger ap u k a (d * DAY)) .reminder_3_days t0

/-- That entry after the daily batch has run on each of the `n` days
following its due day `d` (the 9:00 runs of days `d+1 … d+n`). -/
def c2Chain (ap u : ℕ) (k a d t0 : ℤ) : ℕ → LedgerEntry
  | 0 => c2Entry ap u k a d t0
  | n + 1 => dailyOverdue (d + ((n : ℤ) + 1)) (c2Chain ap u k a d t0 n)

/-! # Theorems -/

/-- C10: for every positive principal `P` and positive tenure `N`, with a zero
annual interest rate `calculateEMI` returns `⌈P / N⌉`, and `⌈P / N⌉ * N ≥ P`. -/
theorem c10_calculateEMI_zero_rate (plan : EmiPlan) (P : ℚ) (hP : 0 < P)
    (hN : 0 < plan.tenure) (hR : plan.interestRate = 0) :
    plan.calculateEMI P = ⌈P / (plan.tenure : ℚ)⌉ ∧
      P ≤ (⌈P / (plan.tenure : ℚ)⌉ : ℚ) * (plan.tenure : ℚ) := by
  have hNQ : (0 : ℚ) < (plan.tenure : ℚ) := by exact_mod_cast hN
  constructor
  · simp [EmiPlan.calculateEMI, hR]
  · have hle : P / (plan.tenure : ℚ) ≤ (⌈P / (plan.tenure : ℚ)⌉ : ℚ) :=
      Int.le_ceil _
    calc P = P / (plan.tenure : ℚ) * (plan.tenure : ℚ) := by field_simp
    _ ≤ (⌈P / (plan.tenure : ℚ)⌉ : ℚ) * (plan.tenure : ℚ) :=
      mul_le_mul_of_nonneg_right hle (le_of_lt hNQ)

/-- Witness for C10 at the spec's own example: plan `{tenure = 3, rate = 0}` and
principal 3000 give a monthly EMI of `⌈3000/3⌉`, covering the principal. -/
theorem c10_calculateEMI_zero_rate_witness :
    (⟨"3 Month No-Cost EMI", 3, 0, 0, 1000, none, true⟩ : EmiPlan).calculateEMI 3000 =
        ⌈(3000 : ℚ) / ((3 : ℕ) : ℚ)⌉ ∧
      (3000 : ℚ) ≤ (⌈(3000 : ℚ) / ((3 : ℕ) : ℚ)⌉ : ℚ) * ((3 : ℕ) : ℚ) :=
  c10_calculateEMI_zero_rate ⟨"3 Month No-Cost EMI", 3, 0, 0, 1000, none, true⟩ 3000
    (by norm_num) (by norm_num) rfl

/-- C3: evaluation of `generateSchedule` at the failing input.  Generating on
2025-01-31 (JS month 0) with tenure 3 produces due dates 2025-03-05,
2025-03-05, 2025-05-05 — the first installment is due two months after
generation, two installments fall due on the same day, and February and April
are skipped, because `setMonth` overflows the month-end before `setDate(5)`
pins the day.  This contradicts the claimed strictly-increasing
one-calendar-month cadence starting one month after generation (the source's
own comment says "Due on 5th of each month"). -/
theorem c3_generateSchedule_month_end_duplicate :
    (({ id := 1, userId := 7, orderId := 2, emiPlanId := 3,
        principalAmount := 3000, totalInterest := 0, processingFee := 0,
        totalAmount := 3000, tenure := 3, monthlyEmi := 1000,
        status := .approved, installments := [], paidInstallments := 0,
        remainingInstallments := 0, nextDueDate := none, approvedAt := none,
        completedAt := none } : EmiApplication).generateSchedule
          ⟨2025, 0, 31⟩).installments.map (·.dueDate) =
      [⟨2025, 2, 5⟩, ⟨2025, 2, 5⟩, ⟨2025, 4, 5⟩] := by
  decide

/-- C8 counterexample: `generateSchedule` on an application that already has a
paid installment is not rejected and does not leave the application
unchanged — the regenerated application differs (the paid installment is
discarded, all installments are freshly `pending`). -/
theorem c8_regenerate_with_paid_not_rejected :
    paidTwoApp.generateSchedule ⟨2025, 2, 10⟩ ≠ paidTwoApp ∧
      ∀ i ∈ (paidTwoApp.generateSchedule ⟨2025, 2, 10⟩).installments,
        i.status = .pending := by
  constructor
  · decide
  · decide

/-- C8 amended: `generateSchedule` on an application with a paid installment is
NOT rejected (there is no `StateConflictError` anywhere in the code): it
unconditionally rebuilds the schedule, replacing every installment — the paid
one included — with `tenure` fresh pending installments, and resets
`remainingInstallments` to `tenure` and `nextDueDate` to the new first due
date, while `paidInstallments` keeps its stale value. -/
theorem c8_regenerate_overwrites (app : EmiApplication) (startDate : JDate)
    (hpaid : ∃ i ∈ app.installments, i.status = .paid) (ht : 0 < app.tenure) :
    (app.generateSchedule startDate).remainingInstallments = (app.tenure : ℤ) ∧
    (app.generateSchedule startDate).nextDueDate = some (dueDateOf startDate 1) ∧
    (∀ i ∈ (app.generateSchedule startDate).installments, i.status = .pending) ∧
    (app.generateSchedule startDate).paidInstallments = app.paidInstallments ∧
    (app.generateSchedule startDate).installments.length = app.tenure := by
  obtain ⟨n, hn⟩ : ∃ n, app.tenure = n + 1 := ⟨app.tenure - 1, by omega⟩
  refine ⟨rfl, ?_, ?_, rfl, by simp [EmiApplication.generateSchedule]⟩
  · simp only [EmiApplication.generateSchedule, hn, List.range_succ_eq_map,
      List.map_cons, List.head?_cons, Option.map_some']
  · intro i hi
    simp only [EmiApplication.generateSchedule, List.mem_map] at hi
    obtain ⟨k, _, rfl⟩ := hi
    rfl

/-- Witness for C8 amended at the counterexample's application. -/
theorem c8_regenerate_overwrites_witness :
    (paidTwoApp.generateSchedule ⟨2025, 2, 10⟩).remainingInstallments =
      ((paidTwoApp.tenure : ℕ) : ℤ) :=
  (c8_regenerate_overwrites paidTwoApp ⟨2025, 2, 10⟩
    ⟨⟨1, ⟨2025, 1, 5⟩, 500, .paid, some ⟨2025, 1, 4⟩, some ("tx1"), some ("upi")⟩,
      by decide, rfl⟩ (by decide)).1

/-- C6 counterexample: applying with principal 5, far below the chosen plan's
`minOrderAmount = 1000`, is NOT rejected — the application is created
(schedule generated, saved).  The `/apply` handler never compares the
principal against the plan's `minOrderAmount`/`maxOrderAmount`. -/
theorem c6_out_of_bounds_principal_accepted :
    (5 : ℚ) < boundedPlan.minOrderAmount ∧
      (applyForEmi 1 7 2 3 (some verifiedKyc) (some boundedPlan) 5
        ⟨2025, 0, 10⟩).isOk = true := by
  constructor
  · norm_num [boundedPlan]
  · decide

/-- C6 amended: the `/apply` flow rejects, with nothing persisted, exactly a
missing/unverified KYC record, a principal above the user's credit limit, and
an unknown plan — in source order.  A tenure is never supplied by the caller
(it always comes from the plan itself), and the plan's
`minOrderAmount`/`maxOrderAmount` bounds are never consulted: any principal
within the credit limit is accepted as-is, with the EMI computed from the raw
principal (no clamping). -/
theorem c6_apply_validation (freshId userId orderId planId : ℕ)
    (kyc : UserKyc) (plan : EmiPlan) (plan? : Option EmiPlan) (P : ℚ)
    (now : JDate) :
    (applyForEmi freshId userId orderId planId none plan? P now =
      .error .kycNotVerified) ∧
    (kyc.verificationStatus ≠ .verified →
      applyForEmi freshId userId orderId planId (some kyc) plan? P now =
        .error .kycNotVerified) ∧
    (kyc.verificationStatus = .verified → P > kyc.creditLimit →
      applyForEmi freshId userId orderId planId (some kyc) plan? P now =
        .error .creditLimitExceeded) ∧
    (kyc.verificationStatus = .verified → ¬P > kyc.creditLimit →
      applyForEmi freshId userId orderId planId (some kyc) none P now =
        .error .planNotFound) ∧
    (kyc.verificationStatus = .verified → ¬P > kyc.creditLimit →
      (applyForEmi freshId userId orderId planId (some kyc) (some plan) P
          now).isOk = true ∧
      ∀ app,
        applyForEmi freshId userId orderId planId (some kyc) (some plan) P now =
            .ok app →
          app.monthlyEmi = plan.calculateEMI P ∧
          app.principalAmount = P ∧
          app.status = .approved) := by
  refine ⟨rfl, ?_, ?_, ?_, ?_⟩
  · intro hv
    simp [applyForEmi, hv]
  · intro hv hcl
    simp [applyForEmi, hv, hcl]
  · intro hv hcl
    simp [applyForEmi, hv, hcl]
  · intro hv hcl
    constructor
    · simp [applyForEmi, hv, hcl, Except.isOk, Except.toBool]
    · intro app h
      simp [applyForEmi, hv, hcl] at h
      cases h
      exact ⟨rfl, rfl, rfl⟩

/-- Witness for C6 amended: at the counterexample's inputs the success branch
fires even though the principal is below the plan's minimum. -/
theorem c6_apply_validation_witness :
    (applyForEmi 1 7 2 3 (some verifiedKyc) (some boundedPlan) 5
        ⟨2025, 0, 10⟩).isOk = true :=
  ((c6_apply_validation 1 7 2 3 verifiedKyc boundedPlan (some boundedPlan) 5
    ⟨2025, 0, 10⟩).2.2.2.2 rfl (by norm_num [verifiedKyc])).1

/-- C1: evaluation of the `/pay` handler at the failing input.  Paying
installment 1 of application 1 succeeds (the application is completed), yet
the matching penalty-ledger entry is bit-for-bit untouched: its status stays
`grace_period`, none of `paidAmount`/`paidDate`/`paymentReference` is set —
the handler contains no `PenaltyLedger` access — and a later overdue-pass run
on that same entry still advances it to `overdue` and accrues penalty
(1000 × 0.1% × 7 days = 7), so the penalty is not frozen by the payment. -/
theorem c1_pay_leaves_ledger_untouched :
    (payEndpoint ⟨[oneInstApp], [graceLedger]⟩ 7 1 1 ⟨2025, 1, 6⟩ "tx9"
        "upi").2.isOk = true ∧
    (payEndpoint ⟨[oneInstApp], [graceLedger]⟩ 7 1 1 ⟨2025, 1, 6⟩ "tx9"
        "upi").1.ledgers = [graceLedger] ∧
    graceLedger.status = .grace_period ∧
    graceLedger.paidAmount = none ∧
    graceLedger.paidDate = none ∧
    graceLedger.paymentReference = none ∧
    (processOverdueEntry (10 * DAY) (10 * DAY + NINE_AM)
        graceLedger).entry.status = .overdue ∧
    (processOverdueEntry (10 * DAY) (10 * DAY + NINE_AM)
        graceLedger).entry.penaltyAmount = 7 := by
  refine ⟨by decide, by rfl, by decide, by decide, by decide, by decide,
    by decide, ?_⟩
  have hstep :
      (processOverdueEntry (10 * DAY) (10 * DAY + NINE_AM)
          graceLedger).entry.penaltyAmount =
        jsRound ((1000 : ℚ) * ((1 / 10) / 100) * ((7 : ℤ) : ℚ)) := by rfl
  rw [hstep]
  norm_num [jsRound]

/-- Helper: every application-status write of the overdue pass is `defaulted`. -/
theorem goOverdue_appUpdates_defaulted (today now : ℤ) (sink : ℕ → NType → Bool)
    (saveOk : LedgerEntry → Bool) (ls : List LedgerEntry) :
    ∀ p ∈ (goOverdue today now sink saveOk ls).appUpdates,
      p.2 = AppStatus.defaulted := by
  induction ls with
  | nil => simp [goOverdue]
  | cons e rest ih =>
    intro p hp
    simp only [goOverdue] at hp
    split at hp
    · split at hp
      · simp only [List.mem_append] at hp
        rcases hp with hp | hp
        · split at hp <;> simp_all
        · exact ih p hp
      · split at hp <;> simp_all
    · exact ih p hp

/-- C9: no operation sets an application's status to `'active'`: the apply
flow creates applications as `'approved'`; paying an installment leaves the
status unchanged or sets `'completed'`; the batch's only application-status
write is `'defaulted'`; and both the upcoming-reminder and due-today passes
select only `'active'` applications — so on a datastore holding no `'active'`
application (in particular one populated through the apply flow) they touch
nothing and emit no `reminder_3_days`/`due_today` notification. -/
theorem c9_active_never_set :
    (∀ (freshId userId orderId planId : ℕ) (kyc : Option UserKyc)
        (plan? : Option EmiPlan) (P : ℚ) (now : JDate) (app : EmiApplication),
      applyForEmi freshId userId orderId planId kyc plan? P now = .ok app →
        app.status = .approved) ∧
    (∀ (app : EmiApplication) (n : ℕ) (now : JDate) (t m : String)
        (app' : EmiApplication),
      payInstallment app n now t m = .ok app' →
        app'.status = app.status ∨ app'.status = .completed) ∧
    (∀ (today : ℤ) (a : EmiAppDoc),
      upcomingSelected today a = true → a.status = .active) ∧
    (∀ (today : ℤ) (a : EmiAppDoc),
      dueTodaySelected today a = true → a.status = .active) ∧
    (∀ (today now : ℤ) (sink : ℕ → NType → Bool) (saveOk : LedgerEntry → Bool)
        (apps : List EmiAppDoc) (ledgers : List LedgerEntry),
      (∀ a ∈ apps, a.status ≠ .active) →
        processUpcomingReminders today now sink saveOk apps ledgers =
            ⟨ledgers, [], [], [], none⟩ ∧
          processDueDateReminders today now sink saveOk apps ledgers =
            ⟨ledgers, [], [], [], none⟩) ∧
    (∀ (today now : ℤ) (sink : ℕ → NType → Bool) (saveOk : LedgerEntry → Bool)
        (ledgers : List LedgerEntry),
      ∀ p ∈ (processOverdueEmis today now sink saveOk ledgers).appUpdates,
        p.2 = AppStatus.defaulted) := by
  refine ⟨?_, ?_, ?_, ?_, ?_, ?_⟩
  · intro f u o p kyc pl P now app h
    cases kyc with
    | none => simp [applyForEmi] at h
    | some k =>
      by_cases hv : k.verificationStatus = .verified
      · by_cases hcl : P > k.creditLimit
        · simp [applyForEmi, hv, hcl] at h
        · cases pl with
          | none => simp [applyForEmi, hv, hcl] at h
          | some plan =>
            simp [applyForEmi, hv, hcl] at h
            cases h
            rfl
      · simp [applyForEmi, hv] at h
  · intro app n now t m app' h
    cases hfind : app.installments.find? (fun i => i.installmentNumber = n) with
    | none => simp [payInstallment, hfind] at h
    | some inst =>
      by_cases hpaid : inst.status = .paid
      · simp [payInstallment, hfind, hpaid] at h
      · by_cases hrem : app.remainingInstallments - 1 = 0
        · simp [payInstallment, hfind, hpaid, hrem] at h
          subst h
          right
          rfl
        · simp [payInstallment, hfind, hpaid, hrem] at h
          subst h
          left
          rfl
  · intro today a h
    rw [upcomingSelected, Bool.and_eq_true] at h
    exact of_decide_eq_true h.1
  · intro today a h
    rw [dueTodaySelected, Bool.and_eq_true] at h
    exact of_decide_eq_true h.1
  · intro today now sink saveOk apps ledgers h
    have hno : ∀ (sel : ℤ → EmiAppDoc → Bool),
        (∀ t a, sel t a = true → a.status = .active) →
        apps.filter (sel today) = [] := by
      intro sel hsel
      rw [List.filter_eq_nil_iff]
      intro a ha hcontra
      exact h a ha (hsel today a hcontra)
    constructor
    · rw [processUpcomingReminders, hno upcomingSelected (fun t a ht => by
        rw [upcomingSelected, Bool.and_eq_true] at ht
        exact of_decide_eq_true ht.1)]
      rfl
    · rw [processDueDateReminders, hno dueTodaySelected (fun t a ht => by
        rw [dueTodaySelected, Bool.and_eq_true] at ht
        exact of_decide_eq_true ht.1)]
      rfl
  · intro today now sink saveOk ledgers
    exact goOverdue_appUpdates_defaulted today now sink saveOk ledgers

/-- Witness for C9: an application produced by the apply flow has status
`approved`, and on a datastore whose only application is that (non-`active`)
one, the two reminder passes do nothing. -/
theorem c9_active_never_set_witness :
    (∀ app, applyForEmi 1 7 2 3 (some verifiedKyc) (some boundedPlan) 1500
        ⟨2025, 0, 10⟩ = .ok app → app.status = .approved) ∧
    processUpcomingReminders 0 NINE_AM (fun _ _ => true) (fun _ => true)
        [⟨1, 7, .approved, some (3 * DAY), 500, 0⟩] [] =
      ⟨[], [], [], [], none⟩ ∧
    processDueDateReminders 0 NINE_AM (fun _ _ => true) (fun _ => true)
        [⟨1, 7, .approved, some (3 * DAY), 500, 0⟩] [] =
      ⟨[], [], [], [], none⟩ :=
  ⟨fun app h => c9_active_never_set.1 1 7 2 3 (some verifiedKyc)
      (some boundedPlan) 1500 ⟨2025, 0, 10⟩ app h,
    (c9_active_never_set.2.2.2.2.1 0 NINE_AM (fun _ _ => true) (fun _ => true)
      [⟨1, 7, .approved, some (3 * DAY), 500, 0⟩] [] (by decide)).1,
    (c9_active_never_set.2.2.2.2.1 0 NINE_AM (fun _ _ => true) (fun _ => true)
      [⟨1, 7, .approved, some (3 * DAY), 500, 0⟩] [] (by decide)).2⟩

/-- C5: the counter invariant `paidInstallments + remainingInstallments =
tenure` and the `nextDueDate` characterisation (due date of the first
`pending` installment, or null) hold after schedule generation of a fresh
application (`paidInstallments = 0`, as the apply flow creates it) and are
preserved by every recorded installment payment. -/
theorem c5_counters_invariant :
    (∀ (app : EmiApplication) (startDate : JDate),
      app.paidInstallments = 0 → 0 < app.tenure →
        (app.generateSchedule startDate).paidInstallments +
            (app.generateSchedule startDate).remainingInstallments =
          ((app.generateSchedule startDate).tenure : ℤ) ∧
        (app.generateSchedule startDate).nextDueDate =
          ((app.generateSchedule startDate).installments.find?
              (fun i => i.status = .pending)).map (·.dueDate)) ∧
    (∀ (app : EmiApplication) (n : ℕ) (now : JDate) (t m : String)
        (app' : EmiApplication),
      payInstallment app n now t m = .ok app' →
        app.paidInstallments + app.remainingInstallments = (app.tenure : ℤ) →
          app'.paidInstallments + app'.remainingInstallments =
            ((app'.tenure : ℕ) : ℤ) ∧
          app'.nextDueDate =
            (app'.installments.find? (fun i => i.status = .pending)).map
              (·.dueDate)) := by
  constructor
  · intro app startDate h0 ht
    obtain ⟨k, hk⟩ : ∃ k, app.tenure = k + 1 := ⟨app.tenure - 1, by omega⟩
    constructor
    · simp only [EmiApplication.generateSchedule]
      rw [h0]
      exact zero_add _
    · simp only [EmiApplication.generateSchedule, hk, List.range_succ_eq_map,
        List.map_cons]
      rw [List.find?_cons_of_pos _ (by rfl)]
      simp
  · intro app n now t m app' h hinv
    cases hfind : app.installments.find? (fun i => i.installmentNumber = n) with
    | none => simp [payInstallment, hfind] at h
    | some inst =>
      by_cases hpaid : inst.status = .paid
      · simp [payInstallment, hfind, hpaid] at h
      · by_cases hrem : app.remainingInstallments - 1 = 0
        · simp [payInstallment, hfind, hpaid, hrem] at h
          subst h
          exact ⟨by simp; omega, rfl⟩
        · simp [payInstallment, hfind, hpaid, hrem] at h
          subst h
          exact ⟨by simp; omega, rfl⟩

/-- Witness for C5: generating the single-installment application's schedule
and then paying installment 1 both maintain the invariant. -/
theorem c5_counters_invariant_witness :
    ((oneInstApp.generateSchedule ⟨2025, 0, 10⟩).paidInstallments +
        (oneInstApp.generateSchedule ⟨2025, 0, 10⟩).remainingInstallments =
      ((oneInstApp.generateSchedule ⟨2025, 0, 10⟩).tenure : ℤ)) ∧
    ∀ app', payInstallment oneInstApp 1 ⟨2025, 1, 6⟩ "tx9" "upi" = .ok app' →
      app'.paidInstallments + app'.remainingInstallments =
        ((app'.tenure : ℕ) : ℤ) :=
  ⟨(c5_counters_invariant.1 oneInstApp ⟨2025, 0, 10⟩ rfl (by decide)).1,
    fun app' h =>
      (c5_counters_invariant.2 oneInstApp 1 ⟨2025, 1, 6⟩ "tx9" "upi" app' h
        (by decide)).1⟩

theorem DAY_pos : (0 : ℤ) < DAY := by norm_num [DAY]

theorem fdiv_day_shift (d k : ℤ) : ((d + k) * DAY - d * DAY).fdiv DAY = k := by
  rw [show (d + k) * DAY - d * DAY = k * DAY from by ring,
    Int.mul_fdiv_cancel _ (by norm_num [DAY])]

theorem fdiv_day_nine (d k : ℤ) :
    ((d + k) * DAY + NINE_AM - (d * DAY + 3 * DAY)).fdiv DAY = k - 3 := by
  rw [show (d + k) * DAY + NINE_AM - (d * DAY + 3 * DAY) =
      NINE_AM + (k - 3) * DAY from by ring,
    Int.fdiv_eq_ediv _ (by norm_num [DAY]),
    Int.add_mul_ediv_right _ _ (by norm_num [DAY]),
    Int.ediv_eq_zero_of_lt (by norm_num [NINE_AM]) (by norm_num [NINE_AM, DAY]),
    zero_add]

/-- First run, day `d+1`: the entry moves to `grace_period` with the day-1
notification logged and no penalty. -/
theorem c2_state1 (ap u : ℕ) (k a d t0 : ℤ) :
    c2Chain ap u k a d t0 1 =
      pushNotif { c2Entry ap u k a d t0 with status := .grace_period }
        .overdue_1_day ((d + 1) * DAY + NINE_AM) := by
  have hsel : ledgerSelected ((d + 1) * DAY) (c2Entry ap u k a d t0) = true := by
    simp [ledgerSelected, c2Entry, pushNotif, mkPenaltyLedger, DAY]
  show dailyOverdue (d + (((0 : ℕ) : ℤ) + 1)) (c2Entry ap u k a d t0) = _
  rw [Nat.cast_zero, zero_add]
  unfold dailyOverdue
  rw [if_pos hsel]
  simp +decide [processOverdueEntry, c2Entry, pushNotif, mkPenaltyLedger,
    hasNotif, fdiv_day_shift]

theorem jsRound_zero : jsRound 0 = 0 := by norm_num [jsRound]

/-- Second run, day `d+2`: a no-op (not day 1, grace period still running). -/
theorem c2_state2 (ap u : ℕ) (k a d t0 : ℤ) :
    c2Chain ap u k a d t0 2 = c2Chain ap u k a d t0 1 := by
  rw [show (2 : ℕ) = 1 + 1 from rfl]
  show dailyOverdue (d + (((1 : ℕ) : ℤ) + 1)) (c2Chain ap u k a d t0 1) = _
  rw [c2_state1, Nat.cast_one, show (1 : ℤ) + 1 = 2 from rfl]
  have hsel : ledgerSelected ((d + 2) * DAY)
      (pushNotif { c2Entry ap u k a d t0 with status := .grace_period }
        .overdue_1_day ((d + 1) * DAY + NINE_AM)) = true := by
    simp [ledgerSelected, c2Entry, pushNotif, mkPenaltyLedger, DAY]
  unfold dailyOverdue
  rw [if_pos hsel]
  simp +decide [processOverdueEntry, c2Entry, pushNotif, mkPenaltyLedger,
    hasNotif, fdiv_day_shift]

/-- Third run, day `d+3`: `daysSinceDue = 3` ends the grace period — status
`overdue`, `isInGracePeriod := false`, `missedDate := dueDate`, penalty
computed for the first time (0, as `daysOverdue = 0`), grace-ended
notification logged. -/
theorem c2_state3 (ap u : ℕ) (k a d t0 : ℤ) :
    c2Chain ap u k a d t0 3 =
      { emiApplicationId := ap, userId := u, installmentNo := k,
        originalAmount := a, dueDate := d * DAY, missedDate := some (d * DAY),
        penaltyRate := 1 / 10, daysOverdue := 0, penaltyAmount := 0,
        totalPayable := some a, gracePeriodDays := 3, isInGracePeriod := false,
        status := .overdue, paidAmount := none, paidDate := none,
        paymentReference := none, isWaived := false,
        notifications :=
          [⟨.reminder_3_days, t0, "push", "sent"⟩,
           ⟨.overdue_1_day, (d + 1) * DAY + NINE_AM, "push", "sent"⟩,
           ⟨.overdue_grace_ended, (d + 3) * DAY + NINE_AM, "push", "sent"⟩] } := by
  rw [show (3 : ℕ) = 2 + 1 from rfl]
  show dailyOverdue (d + (((2 : ℕ) : ℤ) + 1)) (c2Chain ap u k a d t0 2) = _
  rw [c2_state2, c2_state1, Nat.cast_ofNat, show (2 : ℤ) + 1 = 3 from rfl]
  have hsel : ledgerSelected ((d + 3) * DAY)
      (pushNotif { c2Entry ap u k a d t0 with status := .grace_period }
        .overdue_1_day ((d + 1) * DAY + NINE_AM)) = true := by
    simp [ledgerSelected, c2Entry, pushNotif, mkPenaltyLedger, DAY]
  unfold dailyOverdue
  rw [if_pos hsel]
  have hgt : ¬((d + 3) * DAY + NINE_AM ≤ d * DAY + 3 * DAY) := by
    simp only [DAY, NINE_AM]
    omega
  simp +decide [processOverdueEntry, calculatePenalty, c2Entry, pushNotif,
    mkPenaltyLedger, hasNotif, fdiv_day_shift, fdiv_day_nine, hgt, jsRound_zero]

/-- The method `calculatePenalty` never changes the identifying or schedule fields. -/
theorem calculatePenalty_fixed_fields (now : ℤ) (e : LedgerEntry) :
    (calculatePenalty now e).status = e.status ∧
    (calculatePenalty now e).dueDate = e.dueDate ∧
    (calculatePenalty now e).gracePeriodDays = e.gracePeriodDays ∧
    (calculatePenalty now e).notifications = e.notifications := by
  refine ⟨?_, ?_, ?_, ?_⟩ <;>
    (unfold calculatePenalty; dsimp only; split_ifs <;> rfl)

/-- Past the grace period, `calculatePenalty` clears the grace flag and sets
`daysOverdue` to the floored day difference from the grace-period end. -/
theorem calculatePenalty_overdue_fields (now : ℤ) (e : LedgerEntry)
    (hs : ¬(e.status = .paid ∨ e.status = .waived))
    (hgt : ¬(now ≤ e.dueDate + e.gracePeriodDays * DAY)) :
    (calculatePenalty now e).daysOverdue =
        (now - (e.dueDate + e.gracePeriodDays * DAY)).fdiv DAY ∧
      (calculatePenalty now e).isInGracePeriod = false := by
  unfold calculatePenalty
  rw [if_neg hs, if_neg hgt]
  exact ⟨rfl, rfl⟩

/-- A daily run on an entry past day 1 whose grace flag is already cleared is
exactly a penalty recomputation. -/
theorem dailyOverdue_accrual (X : ℤ) (e : LedgerEntry)
    (hsel : ledgerSelected (X * DAY) e = true)
    (hdsd : (X * DAY - e.dueDate).fdiv DAY ≠ 1)
    (hflag : e.isInGracePeriod = false) :
    dailyOverdue X e = calculatePenalty (X * DAY + NINE_AM) e := by
  unfold dailyOverdue
  rw [if_pos hsel]
  unfold processOverdueEntry
  simp [hdsd, hflag]

/-- Runs 4 and 5 are pure penalty recomputations on the overdue entry. -/
theorem c2_state45 (ap u : ℕ) (k a d t0 : ℤ) :
    (c2Chain ap u k a d t0 4).status = .overdue ∧
    (c2Chain ap u k a d t0 4).daysOverdue = 1 ∧
    (c2Chain ap u k a d t0 5).daysOverdue = 2 := by
  have hgt4 : ¬((d + 4) * DAY + NINE_AM ≤ d * DAY + 3 * DAY) := by
    simp only [DAY, NINE_AM]; omega
  have hgt5 : ¬((d + 5) * DAY + NINE_AM ≤ d * DAY + 3 * DAY) := by
    simp only [DAY, NINE_AM]; omega
  have h4 : c2Chain ap u k a d t0 4 =
      calculatePenalty ((d + 4) * DAY + NINE_AM) (c2Chain ap u k a d t0 3) := by
    rw [show (4 : ℕ) = 3 + 1 from rfl]
    show dailyOverdue (d + (((3 : ℕ) : ℤ) + 1)) (c2Chain ap u k a d t0 3) = _
    rw [show (((3 : ℕ) : ℤ) + 1) = 4 from by norm_num]
    refine dailyOverdue_accrual (d + 4) _ ?_ ?_ ?_
    · rw [c2_state3]
      simp [ledgerSelected, DAY]
    · rw [c2_state3]
      simp only [fdiv_day_shift]
      norm_num
    · rw [c2_state3]
  have hfix4 := calculatePenalty_fixed_fields ((d + 4) * DAY + NINE_AM)
    (c2Chain ap u k a d t0 3)
  have hover4 := calculatePenalty_overdue_fields ((d + 4) * DAY + NINE_AM)
    (c2Chain ap u k a d t0 3)
    (by rw [c2_state3]; simp)
    (by rw [c2_state3]; exact hgt4)
  have h4status : (c2Chain ap u k a d t0 4).status = .overdue := by
    rw [h4, hfix4.1, c2_state3]
  have h4days : (c2Chain ap u k a d t0 4).daysOverdue = 1 := by
    rw [h4, hover4.1, c2_state3]
    exact fdiv_day_nine d 4 ▸ by norm_num [fdiv_day_nine]
  have h5 : c2Chain ap u k a d t0 5 =
      calculatePenalty ((d + 5) * DAY + NINE_AM) (c2Chain ap u k a d t0 4) := by
    rw [show (5 : ℕ) = 4 + 1 from rfl]
    show dailyOverdue (d + (((4 : ℕ) : ℤ) + 1)) (c2Chain ap u k a d t0 4) = _
    rw [show (((4 : ℕ) : ℤ) + 1) = 5 from by norm_num]
    refine dailyOverdue_accrual (d + 5) _ ?_ ?_ ?_
    · rw [ledgerSelected, h4, hfix4.2.1, hfix4.1, c2_state3]
      simp [DAY]
    · rw [h4, hfix4.2.1, c2_state3]
      simp only [fdiv_day_shift]
      norm_num
    · rw [h4]
      exact hover4.2
  have h5days : (c2Chain ap u k a d t0 5).daysOverdue = 2 := by
    have hs5 : ¬((c2Chain ap u k a d t0 4).status = .paid ∨
        (c2Chain ap u k a d t0 4).status = .waived) := by
      rw [h4, hfix4.1, c2_state3]; simp
    have hgt5' : ¬((d + 5) * DAY + NINE_AM ≤ (c2Chain ap u k a d t0 4).dueDate +
        (c2Chain ap u k a d t0 4).gracePeriodDays * DAY) := by
      rw [h4, hfix4.2.1, hfix4.2.2.1, c2_state3]
      exact hgt5
    have hover5 := calculatePenalty_overdue_fields ((d + 5) * DAY + NINE_AM)
      (c2Chain ap u k a d t0 4) hs5 hgt5'
    rw [h5, hover5.1, h4, hfix4.2.1, hfix4.2.2.1, c2_state3]
    exact fdiv_day_nine d 5 ▸ by norm_num [fdiv_day_nine]
  exact ⟨h4status, h4days, h5days⟩

/-- C2 counterexample: for the entry with due date `D = 0` (day 0,
`gracePeriodDays = 3`, amount 1000) processed by the 9:00 daily batch on each
successive day, the code is already `overdue` after the run of day `D+3`
(the claim allows `overdue` only once `now > D + gracePeriodDays`, i.e. from
`D+4`), and after the run of day `D+4` it has `daysOverdue = 1`, not the
claimed 0 (and `daysOverdue = 2`, not 1, at `D+5`). -/
theorem c2_counterexample_day3_overdue :
    (c2Chain 1 7 1 1000 0 0 3).status = .overdue ∧
      (c2Chain 1 7 1 1000 0 0 4).daysOverdue = 1 ∧
      (c2Chain 1 7 1 1000 0 0 5).daysOverdue = 2 := by
  refine ⟨by rw [c2_state3], ?_, ?_⟩
  · exact (c2_state45 1 7 1 1000 0 0).2.1
  · exact (c2_state45 1 7 1 1000 0 0).2.2

/-- C2 amended: for every ledger entry created for a midnight-aligned due
date `D = d·DAY` with the schema defaults (`gracePeriodDays = 3`), processed
by the daily 9:00 batch on each successive day: after the `D+1` run the
status is `grace_period` with `penaltyAmount = 0`; the `D+2` run is a no-op;
the `D+3` run (the first with `daysSinceDue ≥ 3` — one day earlier than the
spec's `now > D + gracePeriodDays`) makes it `overdue` with
`isInGracePeriod = false`, `missedDate = D`, `daysOverdue = 0` and
`penaltyAmount = 0`; thereafter `daysOverdue` is 1 at `D+4` and 2 at `D+5`
(one more than the claimed values). -/
theorem c2_amended_daily_evolution (ap u : ℕ) (k a d t0 : ℤ) :
    (c2Chain ap u k a d t0 1).status = .grace_period ∧
    (c2Chain ap u k a d t0 1).penaltyAmount = 0 ∧
    c2Chain ap u k a d t0 2 = c2Chain ap u k a d t0 1 ∧
    (c2Chain ap u k a d t0 3).status = .overdue ∧
    (c2Chain ap u k a d t0 3).isInGracePeriod = false ∧
    (c2Chain ap u k a d t0 3).missedDate = some (d * DAY) ∧
    (c2Chain ap u k a d t0 3).daysOverdue = 0 ∧
    (c2Chain ap u k a d t0 3).penaltyAmount = 0 ∧
    (c2Chain ap u k a d t0 4).status = .overdue ∧
    (c2Chain ap u k a d t0 4).daysOverdue = 1 ∧
    (c2Chain ap u k a d t0 5).daysOverdue = 2 := by
  refine ⟨by rw [c2_state1]; rfl, by rw [c2_state1]; rfl, c2_state2 ap u k a d t0,
    by rw [c2_state3], by rw [c2_state3], by rw [c2_state3], by rw [c2_state3],
    by rw [c2_state3], (c2_state45 ap u k a d t0).1,
    (c2_state45 ap u k a d t0).2.1, (c2_state45 ap u k a d t0).2.2⟩

/-- With persistence succeeding, the overdue pass completes and rewrites each
selected entry in place, regardless of the notification sink. -/
theorem goOverdue_allOk (today now : ℤ) (sink : ℕ → NType → Bool)
    (ls : List LedgerEntry) :
    (goOverdue today now sink (fun _ => true) ls).error = none ∧
      (goOverdue today now sink (fun _ => true) ls).ledgers =
        ls.map fun e =>
          if ledgerSelected today e then (processOverdueEntry today now e).entry
          else e := by
  induction ls with
  | nil => exact ⟨rfl, rfl⟩
  | cons e rest ih =>
    by_cases hsel : ledgerSelected today e = true
    · simp [goOverdue, hsel, ih.1, ih.2]
    · simp [goOverdue, hsel, ih.1, ih.2]

/-- The notification sink never influences which entries the overdue pass
processes, what it emits, its application updates, or whether it fails — only
the set of saved `Notification` documents. -/
theorem goOverdue_sink_independent (today now : ℤ)
    (sink sink' : ℕ → NType → Bool) (saveOk : LedgerEntry → Bool)
    (ls : List LedgerEntry) :
    (goOverdue today now sink saveOk ls).ledgers =
        (goOverdue today now sink' saveOk ls).ledgers ∧
      (goOverdue today now sink saveOk ls).emitted =
        (goOverdue today now sink' saveOk ls).emitted ∧
      (goOverdue today now sink saveOk ls).appUpdates =
        (goOverdue today now sink' saveOk ls).appUpdates ∧
      (goOverdue today now sink saveOk ls).error =
        (goOverdue today now sink' saveOk ls).error := by
  induction ls with
  | nil => exact ⟨rfl, rfl, rfl, rfl⟩
  | cons e rest ih =>
    by_cases hsel : ledgerSelected today e = true
    · by_cases hsave : saveOk (processOverdueEntry today now e).entry = true
      · simp [goOverdue, hsel, hsave, ih.1, ih.2.1, ih.2.2.1, ih.2.2.2]
      · simp [goOverdue, hsel, hsave]
    · simp [goOverdue, hsel, ih.1, ih.2.1, ih.2.2.1, ih.2.2.2]

/-- With persistence succeeding, the upcoming pass never fails. -/
theorem goUpcoming_allOk_error (now : ℤ) (sink : ℕ → NType → Bool)
    (apps : List EmiAppDoc) (ls : List LedgerEntry) :
    (goUpcoming now sink (fun _ => true) apps ls).error = none := by
  induction apps generalizing ls with
  | nil => rfl
  | cons a rest ih =>
    simp only [goUpcoming]
    cases a.nextDueDate with
    | none => exact ih ls
    | some d =>
      by_cases hguard : (ls.find? fun l =>
          ledgerKeyMatch a.id d l && hasNotif l .reminder_3_days).isSome = true
      · simp [hguard, ih]
      · simp [hguard, ih]

/-- With persistence succeeding, the due-today pass never fails. -/
theorem goDueToday_allOk_error (now : ℤ) (sink : ℕ → NType → Bool)
    (apps : List EmiAppDoc) (ls : List LedgerEntry) :
    (goDueToday now sink (fun _ => true) apps ls).error = none := by
  induction apps generalizing ls with
  | nil => rfl
  | cons a rest ih =>
    simp only [goDueToday]
    cases a.nextDueDate with
    | none => exact ih ls
    | some d =>
      by_cases hguard : (match ls.find? (ledgerKeyMatch a.id d) with
          | some l => hasNotif l .due_today
          | none => false) = true
      · simp only [hguard, if_true]
        exact ih ls
      · simp only [hguard, Bool.false_eq_true, if_false]
        cases hfind : ls.find? (ledgerKeyMatch a.id d) with
        | some l => simp [ih]
        | none => simp [ih]

/-- C7 counterexample: a persistence failure on one entry DOES abort the
remaining entries of the overdue pass.  With two day-1 entries and a save
that throws on the first (application 1), the pass stops with an error: both
entries keep their stored state and the second entry's `overdue_1_day` is
never emitted, whereas the same pass with persistence succeeding emits for
both. -/
theorem c7_save_failure_aborts_pass :
    (processOverdueEmis DAY (DAY + NINE_AM) (fun _ _ => true)
        (fun l => decide (l.emiApplicationId ≠ 1))
        [mkPenaltyLedger 1 7 1 1000 0, mkPenaltyLedger 2 8 1 1000 0]).error.isSome =
      true ∧
    (processOverdueEmis DAY (DAY + NINE_AM) (fun _ _ => true)
        (fun l => decide (l.emiApplicationId ≠ 1))
        [mkPenaltyLedger 1 7 1 1000 0, mkPenaltyLedger 2 8 1 1000 0]).ledgers =
      [mkPenaltyLedger 1 7 1 1000 0, mkPenaltyLedger 2 8 1 1000 0] ∧
    (processOverdueEmis DAY (DAY + NINE_AM) (fun _ _ => true)
        (fun l => decide (l.emiApplicationId ≠ 1))
        [mkPenaltyLedger 1 7 1 1000 0, mkPenaltyLedger 2 8 1 1000 0]).emitted =
      [(7, NType.overdue_1_day)] ∧
    (processOverdueEmis DAY (DAY + NINE_AM) (fun _ _ => true) (fun _ => true)
        [mkPenaltyLedger 1 7 1 1000 0, mkPenaltyLedger 2 8 1 1000 0]).emitted =
      [(7, NType.overdue_1_day), (8, NType.overdue_1_day)] := by
  refine ⟨by decide, by rfl, by decide, by decide⟩

/-- C7 amended: notification-sink failures are indeed isolated — the sink has
no influence on the pass's processing, and with persistence succeeding the
overdue pass processes every selected entry and the whole run completes with
its error slot empty (`runPaymentReminderJob` catches everything; nothing is
thrown out of the run).  But a `ledger.save()` failure on one entry aborts
the remaining entries of that pass (they are only retried by the next day's
run), contrary to the claim's "persistence error does not abort" half. -/
theorem c7_amended_failure_isolation :
    (∀ (today now : ℤ) (sink : ℕ → NType → Bool) (ledgers : List LedgerEntry),
      (processOverdueEmis today now sink (fun _ => true) ledgers).error = none ∧
      (processOverdueEmis today now sink (fun _ => true) ledgers).ledgers =
        ledgers.map fun e =>
          if ledgerSelected today e then
            (processOverdueEntry today now e).entry
          else e) ∧
    (∀ (today now : ℤ) (sink sink' : ℕ → NType → Bool)
        (saveOk : LedgerEntry → Bool) (ledgers : List LedgerEntry),
      (processOverdueEmis today now sink saveOk ledgers).ledgers =
          (processOverdueEmis today now sink' saveOk ledgers).ledgers ∧
        (processOverdueEmis today now sink saveOk ledgers).emitted =
          (processOverdueEmis today now sink' saveOk ledgers).emitted ∧
        (processOverdueEmis today now sink saveOk ledgers).error =
          (processOverdueEmis today now sink' saveOk ledgers).error) ∧
    (∀ (today now : ℤ) (sink : ℕ → NType → Bool) (apps : List EmiAppDoc)
        (ledgers : List LedgerEntry),
      (runPaymentReminderJob today now sink (fun _ => true) apps
          ledgers).outcome = none) := by
  refine ⟨?_, ?_, ?_⟩
  · intro today now sink ledgers
    exact goOverdue_allOk today now sink ledgers
  · intro today now sink sink' saveOk ledgers
    exact ⟨(goOverdue_sink_independent today now sink sink' saveOk ledgers).1,
      (goOverdue_sink_independent today now sink sink' saveOk ledgers).2.1,
      (goOverdue_sink_independent today now sink sink' saveOk ledgers).2.2.2⟩
  · intro today now sink apps ledgers
    unfold runPaymentReminderJob processUpcomingReminders
      processDueDateReminders processOverdueEmis
    simp only [goUpcoming_allOk_error, goDueToday_allOk_error]
    exact (goOverdue_allOk today now sink _).1

theorem updateFirst_exists {α : Type} (p : α → Bool) (f : α → α) (Q : α → Prop)
    (l : List α) (hf : ∀ x ∈ l, p x = true → Q x → Q (f x))
    (h : ∃ x ∈ l, Q x) : ∃ y ∈ updateFirst p f l, Q y := by
  induction l with
  | nil => simp at h
  | cons x xs ih =>
    obtain ⟨w, hw, hQ⟩ := h
    by_cases hp : p x = true
    · simp only [updateFirst, hp, if_true]
      rcases List.mem_cons.mp hw with rfl | hmem
      · exact ⟨f w, List.mem_cons_self _ _, hf w (List.mem_cons_self _ _) hp hQ⟩
      · exact ⟨w, List.mem_cons_of_mem _ hmem, hQ⟩
    · simp only [updateFirst, hp, Bool.false_eq_true, if_false]
      rcases List.mem_cons.mp hw with rfl | hmem
      · exact ⟨w, List.mem_cons_self _ _, hQ⟩
      · obtain ⟨y, hy, hQy⟩ :=
          ih (fun z hz => hf z (List.mem_cons_of_mem _ hz)) ⟨w, hmem, hQ⟩
        exact ⟨y, List.mem_cons_of_mem _ hy, hQy⟩

theorem updateFirst_mem_of_find? {α : Type} (p : α → Bool) (f : α → α)
    (l : List α) (x : α) (h : l.find? p = some x) : f x ∈ updateFirst p f l := by
  induction l with
  | nil => simp at h
  | cons y ys ih =>
    by_cases hp : p y = true
    · rw [List.find?_cons_of_pos _ hp] at h
      cases h
      simp [updateFirst, hp]
    · rw [List.find?_cons_of_neg _ (by simp [hp])] at h
      simp only [updateFirst, hp, Bool.false_eq_true, if_false]
      exact List.mem_cons_of_mem _ (ih h)

theorem ledgerKeyMatch_iff (appId : ℕ) (dd : ℤ) (l : LedgerEntry) :
    ledgerKeyMatch appId dd l = true ↔
      l.emiApplicationId = appId ∧ l.dueDate = dd := by
  simp [ledgerKeyMatch]

theorem pushNotif_keyMatch (appId : ℕ) (dd : ℤ) (e : LedgerEntry) (t : NType)
    (now : ℤ) :
    ledgerKeyMatch appId dd (pushNotif e t now) = ledgerKeyMatch appId dd e := by
  simp [ledgerKeyMatch, pushNotif]

theorem pushNotif_hasNotif_self (e : LedgerEntry) (t : NType) (now : ℤ) :
    hasNotif (pushNotif e t now) t = true := by
  simp [hasNotif, pushNotif]

theorem pushNotif_hasNotif_mono (e : LedgerEntry) (t t' : NType) (now : ℤ)
    (h : hasNotif e t = true) : hasNotif (pushNotif e t' now) t = true := by
  simp only [hasNotif, pushNotif, List.any_append, Bool.or_eq_true]
  exact Or.inl h

/-- Once some ledger entry for a key carries a `reminder_3_days` record, the
upcoming pass keeps such an entry around for that key. -/
theorem goUpcoming_preserves_reminder (now : ℤ) (sink : ℕ → NType → Bool)
    (apps : List EmiAppDoc) (ls : List LedgerEntry) (appId : ℕ) (dd : ℤ)
    (h : ∃ l ∈ ls, ledgerKeyMatch appId dd l = true ∧
      hasNotif l .reminder_3_days = true) :
    ∃ l ∈ (goUpcoming now sink (fun _ => true) apps ls).ledgers,
      ledgerKeyMatch appId dd l = true ∧
        hasNotif l .reminder_3_days = true := by
  induction apps generalizing ls with
  | nil => exact h
  | cons a rest ih =>
    simp only [goUpcoming]
    cases hnd : a.nextDueDate with
    | none => exact ih ls h
    | some d' =>
      by_cases hguard : (ls.find? fun l =>
          ledgerKeyMatch a.id d' l && hasNotif l .reminder_3_days).isSome = true
      · simp only [hguard, if_true]
        exact ih ls h
      · simp only [hguard, Bool.false_eq_true, if_false, if_true]
        by_cases hfind : (ls.find? (ledgerKeyMatch a.id d')).isSome = true
        · simp only [hfind, if_true]
          refine ih _ (updateFirst_exists _ _ _ ls ?_ h)
          intro x hxmem hpx hQx
          exfalso
          have hsome : (ls.find? fun l => ledgerKeyMatch a.id d' l &&
              hasNotif l .reminder_3_days).isSome = true := by
            rw [List.find?_isSome]
            exact ⟨x, hxmem, by simp [hpx, hQx.2]⟩
          exact hguard hsome
        · simp only [hfind, Bool.false_eq_true, if_false]
          refine ih _ ?_
          obtain ⟨w, hw, hQ⟩ := h
          exact ⟨w, List.mem_append_left _ hw, hQ⟩

/-- After the upcoming pass (saves succeeding), every processed application
has a ledger entry for its `(application, dueDate)` key with the
`reminder_3_days` logged. -/
theorem goUpcoming_establishes (now : ℤ) (sink : ℕ → NType → Bool)
    (apps : List EmiAppDoc) (ls : List LedgerEntry) :
    ∀ a ∈ apps, ∀ d', a.nextDueDate = some d' →
      ∃ l ∈ (goUpcoming now sink (fun _ => true) apps ls).ledgers,
        ledgerKeyMatch a.id d' l = true ∧
          hasNotif l .reminder_3_days = true := by
  induction apps generalizing ls with
  | nil => simp
  | cons a rest ih =>
    intro b hb d' hd'
    rcases List.mem_cons.mp hb with rfl | hmem
    · -- the head application's own key
      simp only [goUpcoming, hd']
      by_cases hguard : (ls.find? fun l =>
          ledgerKeyMatch b.id d' l && hasNotif l .reminder_3_days).isSome = true
      · simp only [hguard, if_true]
        apply goUpcoming_preserves_reminder
        obtain ⟨x, hx, hpx⟩ := List.find?_isSome.mp hguard
        exact ⟨x, hx, by simpa [Bool.and_eq_true] using hpx⟩
      · simp only [hguard, Bool.false_eq_true, if_false, if_true]
        by_cases hfind : (ls.find? (ledgerKeyMatch b.id d')).isSome = true
        · simp only [hfind, if_true]
          apply goUpcoming_preserves_reminder
          obtain ⟨w, hw⟩ := Option.isSome_iff_exists.mp hfind
          rw [hw]
          refine ⟨_, updateFirst_mem_of_find? _ _ ls w hw, ?_, ?_⟩
          · rw [pushNotif_keyMatch]
            exact List.find?_some hw
          · exact pushNotif_hasNotif_self _ _ _
        · simp only [hfind, Bool.false_eq_true, if_false]
          apply goUpcoming_preserves_reminder
          rw [Option.not_isSome_iff_eq_none.mp hfind]
          refine ⟨_, List.mem_append_right _ (List.mem_cons_self _ _), ?_, ?_⟩
          · rw [pushNotif_keyMatch]
            simp [ledgerKeyMatch, mkPenaltyLedger]
          · exact pushNotif_hasNotif_self _ _ _
    · -- an application further down the list: `ih` at the evolved ledgers
      simp only [goUpcoming]
      cases hnd : a.nextDueDate with
      | none => exact ih ls b hmem d' hd'
      | some da =>
        by_cases hguard : (ls.find? fun l =>
            ledgerKeyMatch a.id da l && hasNotif l .reminder_3_days).isSome = true
        · simp only [hguard, if_true]
          exact ih ls b hmem d' hd'
        · simp only [hguard, Bool.false_eq_true, if_false, if_true]
          by_cases hfind : (ls.find? (ledgerKeyMatch a.id da)).isSome = true
          · simp only [hfind, if_true]
            exact ih _ b hmem d' hd'
          · simp only [hfind, Bool.false_eq_true, if_false]
            exact ih _ b hmem d' hd'

/-- When every processed application already has its reminder logged, the
upcoming pass is a complete no-op. -/
theorem goUpcoming_skip (now : ℤ) (sink : ℕ → NType → Bool)
    (saveOk : LedgerEntry → Bool) (apps : List EmiAppDoc)
    (ls : List LedgerEntry)
    (h : ∀ a ∈ apps, ∀ d', a.nextDueDate = some d' →
      ∃ l ∈ ls, ledgerKeyMatch a.id d' l = true ∧
        hasNotif l .reminder_3_days = true) :
    goUpcoming now sink saveOk apps ls = ⟨ls, [], [], [], none⟩ := by
  induction apps with
  | nil => rfl
  | cons a rest ih =>
    simp only [goUpcoming]
    cases hnd : a.nextDueDate with
    | none => exact ih fun b hb => h b (List.mem_cons_of_mem _ hb)
    | some d' =>
      have hguard : (ls.find? fun l =>
          ledgerKeyMatch a.id d' l && hasNotif l .reminder_3_days).isSome = true := by
        obtain ⟨l, hl, hk, hn⟩ := h a (List.mem_cons_self _ _) d' hnd
        rw [List.find?_isSome]
        exact ⟨l, hl, by simp [hk, hn]⟩
      simp only [hguard, if_true]
      exact ih fun b hb => h b (List.mem_cons_of_mem _ hb)

theorem find?_updateFirst_disjoint {α : Type} (p q : α → Bool) (f : α → α)
    (l : List α) (h1 : ∀ x, p x = true → q x = false)
    (h2 : ∀ x, p x = true → q (f x) = false) :
    (updateFirst p f l).find? q = l.find? q := by
  induction l with
  | nil => rfl
  | cons y ys ih =>
    by_cases hp : p y = true
    · simp only [updateFirst, hp, if_true]
      rw [List.find?_cons_of_neg _ (by simp [h2 y hp]),
        List.find?_cons_of_neg _ (by simp [h1 y hp])]
    · simp only [updateFirst, hp, Bool.false_eq_true, if_false]
      by_cases hq : q y = true
      · rw [List.find?_cons_of_pos _ hq, List.find?_cons_of_pos _ hq]
      · rw [List.find?_cons_of_neg _ (by simp [hq]),
          List.find?_cons_of_neg _ (by simp [hq])]
        exact ih

theorem find?_updateFirst_self {α : Type} (p : α → Bool) (f : α → α)
    (l : List α) (x : α) (h : l.find? p = some x) (hf : p (f x) = true) :
    (updateFirst p f l).find? p = some (f x) := by
  induction l with
  | nil => simp at h
  | cons y ys ih =>
    by_cases hp : p y = true
    · rw [List.find?_cons_of_pos _ hp] at h
      cases h
      simp only [updateFirst, hp, if_true]
      rw [List.find?_cons_of_pos _ hf]
    · rw [List.find?_cons_of_neg _ (by simp [hp])] at h
      simp only [updateFirst, hp, Bool.false_eq_true, if_false]
      rw [List.find?_cons_of_neg _ (by simp [hp])]
      exact ih h

/-- Once the first ledger entry for a key logs `due_today`, the due-today
pass keeps it that way. -/
theorem goDueToday_preserves (now : ℤ) (sink : ℕ → NType → Bool)
    (apps : List EmiAppDoc) (ls : List LedgerEntry) (appId : ℕ) (dd : ℤ)
    (h : ∃ l, ls.find? (ledgerKeyMatch appId dd) = some l ∧
      hasNotif l .due_today = true) :
    ∃ l, ((goDueToday now sink (fun _ => true) apps ls).ledgers).find?
        (ledgerKeyMatch appId dd) = some l ∧ hasNotif l .due_today = true := by
  induction apps generalizing ls with
  | nil => exact h
  | cons a rest ih =>
    simp only [goDueToday]
    cases hnd : a.nextDueDate with
    | none => exact ih ls h
    | some d =>
      by_cases hguard : (match ls.find? (ledgerKeyMatch a.id d) with
          | some l => hasNotif l .due_today
          | none => false) = true
      · simp only [hguard, if_true]
        exact ih ls h
      · simp only [hguard, Bool.false_eq_true, if_false]
        cases hfind : ls.find? (ledgerKeyMatch a.id d) with
        | none => exact ih ls h
        | some l0 =>
          by_cases hkeys : appId = a.id ∧ dd = d
          · exfalso
            obtain ⟨l, hfl, hnl⟩ := h
            rw [hkeys.1, hkeys.2, hfind] at hfl
            cases hfl
            rw [hfind] at hguard
            exact hguard hnl
          · refine ih _ ?_
            obtain ⟨l, hfl, hnl⟩ := h
            refine ⟨l, ?_, hnl⟩
            rw [find?_updateFirst_disjoint]
            · exact hfl
            · intro x hpx
              rw [ledgerKeyMatch_iff] at hpx
              by_contra hc
              rw [Bool.not_eq_false, ledgerKeyMatch_iff] at hc
              exact hkeys ⟨hc.1 ▸ hpx.1, hc.2 ▸ hpx.2⟩
            · intro x hpx
              rw [pushNotif_keyMatch]
              have hl0 := List.find?_some hfind
              rw [ledgerKeyMatch_iff] at hl0
              by_contra hc
              rw [Bool.not_eq_false, ledgerKeyMatch_iff] at hc
              exact hkeys ⟨hc.1 ▸ hl0.1, hc.2 ▸ hl0.2⟩

/-- After the due-today pass (saves succeeding), every processed application
that HAS a ledger entry for its key ends with `due_today` logged on the first
such entry. -/
theorem goDueToday_establishes (now : ℤ) (sink : ℕ → NType → Bool)
    (apps : List EmiAppDoc) (ls : List LedgerEntry) :
    ∀ a ∈ apps, ∀ d', a.nextDueDate = some d' →
      (∃ l ∈ ls, ledgerKeyMatch a.id d' l = true) →
      ∃ l, ((goDueToday now sink (fun _ => true) apps ls).ledgers).find?
          (ledgerKeyMatch a.id d') = some l ∧ hasNotif l .due_today = true := by
  induction apps generalizing ls with
  | nil => simp
  | cons a rest ih =>
    intro b hb d' hd' hex
    rcases List.mem_cons.mp hb with rfl | hmem
    · simp only [goDueToday, hd']
      have hfind : (ls.find? (ledgerKeyMatch b.id d')).isSome = true := by
        rw [List.find?_isSome]
        obtain ⟨w, hw, hkw⟩ := hex
        exact ⟨w, hw, hkw⟩
      obtain ⟨l0, hl0⟩ := Option.isSome_iff_exists.mp hfind
      by_cases hguard : (match ls.find? (ledgerKeyMatch b.id d') with
          | some l => hasNotif l .due_today
          | none => false) = true
      · simp only [hguard, if_true]
        apply goDueToday_preserves
        rw [hl0] at hguard
        exact ⟨l0, hl0, hguard⟩
      · rw [hl0] at hguard
        have hn0 : hasNotif l0 .due_today = false := by
          rw [← Bool.not_eq_true]
          exact hguard
        simp only [hl0, hn0, Bool.false_eq_true, if_false, if_true]
        have hkey' : ledgerKeyMatch b.id d' (pushNotif l0 .due_today now) = true := by
          rw [pushNotif_keyMatch]
          exact List.find?_some hl0
        have hself := find?_updateFirst_self (ledgerKeyMatch b.id d')
          (fun _ => pushNotif l0 .due_today now) ls l0 hl0 hkey'
        exact goDueToday_preserves now sink rest _ b.id d'
          ⟨pushNotif l0 .due_today now, hself, pushNotif_hasNotif_self _ _ _⟩
    · simp only [goDueToday]
      cases hnd : a.nextDueDate with
      | none => exact ih ls b hmem d' hd' hex
      | some d =>
        by_cases hguard : (match ls.find? (ledgerKeyMatch a.id d) with
            | some l => hasNotif l .due_today
            | none => false) = true
        · simp only [hguard, if_true]
          exact ih ls b hmem d' hd' hex
        · simp only [hguard, Bool.false_eq_true, if_false]
          cases hfind : ls.find? (ledgerKeyMatch a.id d) with
          | none => exact ih ls b hmem d' hd' hex
          | some l0 =>
            refine ih _ b hmem d' hd' ?_
            refine updateFirst_exists _ _ _ ls ?_ hex
            intro x hx hpx hQx
            rw [pushNotif_keyMatch]
            have hl0 := List.find?_some hfind
            rw [ledgerKeyMatch_iff] at hl0 hpx hQx ⊢
            exact ⟨by omega, by omega⟩

/-- When, for every processed application, the first ledger entry under its
key already logs `due_today`, the due-today pass is a complete no-op. -/
theorem goDueToday_skip (now : ℤ) (sink : ℕ → NType → Bool)
    (saveOk : LedgerEntry → Bool) (apps : List EmiAppDoc)
    (ls : List LedgerEntry)
    (h : ∀ a ∈ apps, ∀ d', a.nextDueDate = some d' →
      ∃ l, ls.find? (ledgerKeyMatch a.id d') = some l ∧
        hasNotif l .due_today = true) :
    goDueToday now sink saveOk apps ls = ⟨ls, [], [], [], none⟩ := by
  induction apps with
  | nil => rfl
  | cons a rest ih =>
    simp only [goDueToday]
    cases hnd : a.nextDueDate with
    | none => exact ih fun b hb => h b (List.mem_cons_of_mem _ hb)
    | some d' =>
      obtain ⟨l, hfl, hnl⟩ := h a (List.mem_cons_self _ _) d' hnd
      simp only [hfl, hnl, if_true]
      exact ih fun b hb => h b (List.mem_cons_of_mem _ hb)

/-- Recomputing the penalty at the same instant is the identity — the
deterministic full recompute the spec relies on. -/
theorem calculatePenalty_idem (now : ℤ) (e : LedgerEntry) :
    calculatePenalty now (calculatePenalty now e) = calculatePenalty now e := by
  by_cases h1 : e.status = .paid ∨ e.status = .waived
  · simp [calculatePenalty, h1]
  · by_cases h2 : now ≤ e.dueDate + e.gracePeriodDays * DAY
    · simp [calculatePenalty, h1, h2]
    · simp [calculatePenalty, h1, h2]

theorem fdiv_ge3 {t dd : ℤ} (h : 3 ≤ (t - dd).fdiv DAY) : dd + 3 * DAY ≤ t := by
  rw [Int.fdiv_eq_ediv _ (le_of_lt DAY_pos)] at h
  have := (Int.le_ediv_iff_mul_le DAY_pos).mp h
  linarith

/-- The overdue loop body is the identity (no notification, no defaulting)
on an entry none of whose three blocks applies. -/
theorem processOverdueEntry_noop (today now : ℤ) (e : LedgerEntry)
    (h1 : ¬((today - e.dueDate).fdiv DAY = 1 ∧ hasNotif e .overdue_1_day = false))
    (h2 : ¬(3 ≤ (today - e.dueDate).fdiv DAY ∧ e.isInGracePeriod = true))
    (h3 : e.isInGracePeriod = true ∨ calculatePenalty now e = e) :
    processOverdueEntry today now e = ⟨e, [], false⟩ := by
  unfold processOverdueEntry
  simp only [h1, h2, if_false]
  rcases h3 with h3 | h3
  · simp [h3]
  · simp only [h3]
    split_ifs <;> rfl

theorem hasNotif_congr (e e' : LedgerEntry) (t : NType)
    (h : e.notifications = e'.notifications) : hasNotif e t = hasNotif e' t := by
  simp [hasNotif, h]

/-- A second same-day run of the overdue loop body on an already-processed
entry (default 3-day grace, a run strictly after midnight) changes nothing
and emits nothing. -/
theorem overdue_step_idem (today now : ℤ) (e : LedgerEntry)
    (hnow : today < now) (hg : e.gracePeriodDays = 3)
    (hsel : ledgerSelected today e = true) :
    ledgerSelected today (processOverdueEntry today now e).entry = true ∧
      processOverdueEntry today now (processOverdueEntry today now e).entry =
        ⟨(processOverdueEntry today now e).entry, [], false⟩ := by
  have hselP := hsel
  rw [ledgerSelected, Bool.and_eq_true, Bool.or_eq_true, Bool.or_eq_true] at hselP
  obtain ⟨hdlt, hstat3⟩ := hselP
  rw [decide_eq_true_eq] at hdlt
  have hstat : ¬(e.status = .paid ∨ e.status = .waived) := by
    rcases hstat3 with (h | h) | h <;>
      rw [decide_eq_true_eq] at h <;> simp [h]
  have hstatmem : e.status = .pending ∨ e.status = .grace_period ∨
      e.status = .overdue := by
    rcases hstat3 with (h | h) | h <;> rw [decide_eq_true_eq] at h <;> simp [h]
  by_cases hd1 : (today - e.dueDate).fdiv DAY = 1
  · have h31 : ¬(3 ≤ (today - e.dueDate).fdiv DAY) := by omega
    by_cases hn : hasNotif e .overdue_1_day = false
    · -- branch 1 fires
      by_cases hf : e.isInGracePeriod = true
      · have hst : (processOverdueEntry today now e).entry =
            pushNotif { e with status := .grace_period } .overdue_1_day now := by
          simp [processOverdueEntry, hd1, hn, h31, hf, pushNotif]
        rw [hst]
        refine ⟨by simp [ledgerSelected, pushNotif, hdlt], ?_⟩
        refine processOverdueEntry_noop _ _ _ ?_ ?_ ?_
        · rintro ⟨-, hcontra⟩
          rw [pushNotif_hasNotif_self] at hcontra
          exact absurd hcontra (by simp)
        · rintro ⟨hcontra, -⟩
          simp only [pushNotif] at hcontra
          omega
        · left
          simp [pushNotif, hf]
      · have hst : (processOverdueEntry today now e).entry =
            calculatePenalty now
              (pushNotif { e with status := .grace_period } .overdue_1_day now) := by
          simp [processOverdueEntry, hd1, hn, h31, hf, pushNotif]
        have hfix := calculatePenalty_fixed_fields now
          (pushNotif { e with status := .grace_period } .overdue_1_day now)
        rw [hst]
        refine ⟨?_, ?_⟩
        · rw [ledgerSelected, hfix.1, hfix.2.1]
          simp [pushNotif, hdlt]
        · refine processOverdueEntry_noop _ _ _ ?_ ?_ ?_
          · rintro ⟨-, hcontra⟩
            rw [hasNotif_congr _ _ _ hfix.2.2.2, pushNotif_hasNotif_self]
              at hcontra
            exact absurd hcontra (by simp)
          · rintro ⟨hcontra, -⟩
            rw [hfix.2.1] at hcontra
            simp only [pushNotif] at hcontra
            omega
          · right
            exact calculatePenalty_idem now _
    · -- day-1 notification already present: branch 1 off
      rw [Bool.not_eq_false] at hn
      by_cases hf : e.isInGracePeriod = true
      · have hst : (processOverdueEntry today now e).entry = e := by
          simp [processOverdueEntry, hd1, hn, h31, hf]
        rw [hst]
        refine ⟨hsel, processOverdueEntry_noop _ _ _ ?_ ?_ ?_⟩
        · rintro ⟨-, hcontra⟩
          rw [hn] at hcontra
          exact absurd hcontra (by simp)
        · rintro ⟨hcontra, -⟩
          omega
        · left
          exact hf
      · have hst : (processOverdueEntry today now e).entry =
            calculatePenalty now e := by
          simp [processOverdueEntry, hd1, hn, h31, hf]
        have hfix := calculatePenalty_fixed_fields now e
        rw [hst]
        refine ⟨?_, processOverdueEntry_noop _ _ _ ?_ ?_ ?_⟩
        · rw [ledgerSelected, hfix.1, hfix.2.1]
          rw [ledgerSelected] at hsel
          exact hsel
        · rintro ⟨-, hcontra⟩
          rw [hasNotif_congr _ _ _ hfix.2.2.2, hn] at hcontra
          exact absurd hcontra (by simp)
        · rintro ⟨hcontra, -⟩
          rw [hfix.2.1] at hcontra
          omega
        · right
          exact calculatePenalty_idem now _
  · -- not day 1: branch 1 off in both runs
    by_cases h3 : 3 ≤ (today - e.dueDate).fdiv DAY
    · have hle : ¬(now ≤ e.dueDate + e.gracePeriodDays * DAY) := by
        rw [hg]
        have := fdiv_ge3 h3
        omega
      by_cases hf : e.isInGracePeriod = true
      · -- grace period ends this run
        have hst : (processOverdueEntry today now e).entry =
            calculatePenalty now
              (pushNotif
                (calculatePenalty now
                  { e with isInGracePeriod := false, status := .overdue,
                           missedDate := some e.dueDate })
                .overdue_grace_ended now) := by
          have hin : (calculatePenalty now
              { e with isInGracePeriod := false, status := .overdue,
                       missedDate := some e.dueDate }).isInGracePeriod = false := by
            refine (calculatePenalty_overdue_fields now _ (by simp) ?_).2
            simpa using hle
          simp only [processOverdueEntry, hd1, false_and, if_false, h3, hf,
            and_true, true_and, if_true, pushNotif]
          simp [hin, pushNotif]
        have hin2 := calculatePenalty_fixed_fields now
          { e with isInGracePeriod := false, status := .overdue,
                   missedDate := some e.dueDate }
        have hfix := calculatePenalty_fixed_fields now
          (pushNotif
            (calculatePenalty now
              { e with isInGracePeriod := false, status := .overdue,
                       missedDate := some e.dueDate })
            .overdue_grace_ended now)
        rw [hst]
        have hXdue : (calculatePenalty now
            (pushNotif
              (calculatePenalty now
                { e with isInGracePeriod := false, status := .overdue,
                         missedDate := some e.dueDate })
              .overdue_grace_ended now)).dueDate = e.dueDate := by
          rw [hfix.2.1]
          simp only [pushNotif]
          rw [hin2.2.1]
        have hXflag : (calculatePenalty now
            (pushNotif
              (calculatePenalty now
                { e with isInGracePeriod := false, status := .overdue,
                         missedDate := some e.dueDate })
              .overdue_grace_ended now)).isInGracePeriod = false := by
          refine (calculatePenalty_overdue_fields now _ ?_ ?_).2
          · simp only [pushNotif]
            rw [hin2.1]
            simp
          · simp only [pushNotif]
            rw [hin2.2.1, hin2.2.2.1]
            simpa using hle
        have hXstat : (calculatePenalty now
            (pushNotif
              (calculatePenalty now
                { e with isInGracePeriod := false, status := .overdue,
                         missedDate := some e.dueDate })
              .overdue_grace_ended now)).status = LStatus.overdue := by
          rw [hfix.1]
          simp only [pushNotif]
          rw [hin2.1]
        refine ⟨?_, processOverdueEntry_noop _ _ _ ?_ ?_ ?_⟩
        · simp [ledgerSelected, hXdue, hXstat, hdlt]
        · rintro ⟨hcontra, -⟩
          rw [hXdue] at hcontra
          exact hd1 hcontra
        · rintro ⟨-, hcontra⟩
          rw [hXflag] at hcontra
          exact absurd hcontra (by simp)
        · right
          exact calculatePenalty_idem now _
      · -- flag already cleared: accrual only
        have hst : (processOverdueEntry today now e).entry =
            calculatePenalty now e := by
          simp [processOverdueEntry, hd1, h3, hf]
        have hfix := calculatePenalty_fixed_fields now e
        have hXflag : (calculatePenalty now e).isInGracePeriod = false :=
          (calculatePenalty_overdue_fields now e hstat hle).2
        rw [hst]
        refine ⟨?_, processOverdueEntry_noop _ _ _ ?_ ?_ ?_⟩
        · rw [ledgerSelected, hfix.1, hfix.2.1]
          rw [ledgerSelected] at hsel
          exact hsel
        · rintro ⟨hcontra, -⟩
          rw [hfix.2.1] at hcontra
          exact hd1 hcontra
        · rintro ⟨-, hcontra⟩
          rw [hXflag] at hcontra
          exact absurd hcontra (by simp)
        · right
          exact calculatePenalty_idem now _
    · -- fewer than 3 days since due: branches 1 and 2 off
      by_cases hf : e.isInGracePeriod = true
      · have hst : (processOverdueEntry today now e).entry = e := by
          simp [processOverdueEntry, hd1, h3, hf]
        rw [hst]
        refine ⟨hsel, processOverdueEntry_noop _ _ _ ?_ ?_ ?_⟩
        · rintro ⟨hcontra, -⟩
          exact hd1 hcontra
        · rintro ⟨hcontra, -⟩
          exact h3 hcontra
        · left
          exact hf
      · have hst : (processOverdueEntry today now e).entry =
            calculatePenalty now e := by
          simp [processOverdueEntry, hd1, h3, hf]
        have hfix := calculatePenalty_fixed_fields now e
        rw [hst]
        refine ⟨?_, processOverdueEntry_noop _ _ _ ?_ ?_ ?_⟩
        · rw [ledgerSelected, hfix.1, hfix.2.1]
          rw [ledgerSelected] at hsel
          exact hsel
        · rintro ⟨hcontra, -⟩
          rw [hfix.2.1] at hcontra
          exact hd1 hcontra
        · rintro ⟨hcontra, -⟩
          rw [hfix.2.1] at hcontra
          exact h3 hcontra
        · right
          exact calculatePenalty_idem now _

/-- A second same-day run of the whole overdue pass (default grace periods,
run after midnight, saves succeeding) re-saves identical entries, emits
nothing, and defaults no application, for any pair of sinks. -/
theorem goOverdue_idem (today now : ℤ) (sink sink' : ℕ → NType → Bool)
    (ls : List LedgerEntry) (hnow : today < now)
    (hg : ∀ e ∈ ls, e.gracePeriodDays = 3) :
    goOverdue today now sink' (fun _ => true)
        ((goOverdue today now sink (fun _ => true) ls).ledgers) =
      ⟨(goOverdue today now sink (fun _ => true) ls).ledgers, [], [], [],
        none⟩ := by
  induction ls with
  | nil => rfl
  | cons e rest ih =>
    have hgrest : ∀ x ∈ rest, x.gracePeriodDays = 3 :=
      fun x hx => hg x (List.mem_cons_of_mem _ hx)
    by_cases hsel : ledgerSelected today e = true
    · obtain ⟨hsel', hidem⟩ :=
        overdue_step_idem today now e hnow (hg e (List.mem_cons_self _ _)) hsel
      simp only [goOverdue, hsel, if_true]
      simp only [goOverdue, hsel', if_true, hidem]
      simp [ih hgrest]
    · simp only [goOverdue, hsel, Bool.false_eq_true, if_false]
      simp [ih hgrest, goOverdue, hsel]

/-- C4 counterexample: for an active application due today with NO penalty
ledger entry for its `(application, dueDate)`, running the due-today pass
twice on the same day emits the `due_today` notification BOTH times — the
send is never logged anywhere (the pass only logs into an existing ledger
entry), so the "has a record of this (entry, type)" guard never engages. -/
theorem c4_due_today_emitted_twice :
    (processDueDateReminders 0 NINE_AM (fun _ _ => true) (fun _ => true)
        [⟨1, 7, .active, some 0, 1000, 0⟩] []).emitted =
      [(7, NType.due_today)] ∧
    (processDueDateReminders 0 NINE_AM (fun _ _ => true) (fun _ => true)
        [⟨1, 7, .active, some 0, 1000, 0⟩] []).ledgers = [] ∧
    (processDueDateReminders 0 NINE_AM (fun _ _ => true) (fun _ => true)
        [⟨1, 7, .active, some 0, 1000, 0⟩]
        (processDueDateReminders 0 NINE_AM (fun _ _ => true) (fun _ => true)
          [⟨1, 7, .active, some 0, 1000, 0⟩] []).ledgers).emitted =
      [(7, NType.due_today)] := by
  refine ⟨by decide, by decide, by decide⟩

/-- C4 amended: re-running a pass for the same day is emission-free for
`reminder_3_days` (the upcoming pass creates the ledger entry and logs the
reminder, so a second run skips every application), for `due_today` PROVIDED
a ledger entry for the `(application, dueDate)` key already exists (only then
is the send logged), and for `overdue_1_day`/`overdue_grace_ended` (the
overdue pass re-run re-saves identical entries and emits nothing — penalty
recomputation is idempotent).  Without a pre-existing ledger entry the
`due_today` notification is re-sent on every run. -/
theorem c4_amended_idempotency :
    (∀ (today now now' : ℤ) (sink sink' : ℕ → NType → Bool)
        (apps : List EmiAppDoc) (ls : List LedgerEntry),
      processUpcomingReminders today now' sink' (fun _ => true) apps
          (processUpcomingReminders today now sink (fun _ => true) apps
            ls).ledgers =
        ⟨(processUpcomingReminders today now sink (fun _ => true) apps
            ls).ledgers, [], [], [], none⟩) ∧
    (∀ (today now now' : ℤ) (sink sink' : ℕ → NType → Bool)
        (apps : List EmiAppDoc) (ls : List LedgerEntry),
      (∀ a ∈ apps, dueTodaySelected today a = true → ∀ d,
        a.nextDueDate = some d → ∃ l ∈ ls, ledgerKeyMatch a.id d l = true) →
      processDueDateReminders today now' sink' (fun _ => true) apps
          (processDueDateReminders today now sink (fun _ => true) apps
            ls).ledgers =
        ⟨(processDueDateReminders today now sink (fun _ => true) apps
            ls).ledgers, [], [], [], none⟩) ∧
    (∀ (today now : ℤ) (sink sink' : ℕ → NType → Bool)
        (ls : List LedgerEntry),
      today < now → (∀ e ∈ ls, e.gracePeriodDays = 3) →
      processOverdueEmis today now sink' (fun _ => true)
          (processOverdueEmis today now sink (fun _ => true) ls).ledgers =
        ⟨(processOverdueEmis today now sink (fun _ => true) ls).ledgers,
          [], [], [], none⟩) := by
  refine ⟨?_, ?_, ?_⟩
  · intro today now now' sink sink' apps ls
    unfold processUpcomingReminders
    apply goUpcoming_skip
    intro a ha d' hd'
    exact goUpcoming_establishes now sink
      (apps.filter (upcomingSelected today)) ls a ha d' hd'
  · intro today now now' sink sink' apps ls h
    unfold processDueDateReminders
    apply goDueToday_skip
    intro a ha d' hd'
    refine goDueToday_establishes now sink
      (apps.filter (dueTodaySelected today)) ls a ha d' hd' ?_
    exact h a (List.mem_filter.mp ha).1 (List.mem_filter.mp ha).2 d' hd'
  · intro today now sink sink' ls hnow hg
    exact goOverdue_idem today now sink sink' ls hnow hg

/-- Witness for C4 amended: concrete second runs on a one-app datastore do
nothing — due-today with a matching ledger entry present, and the overdue
pass at 9:00 with a default entry. -/
theorem c4_amended_idempotency_witness :
    processDueDateReminders 0 NINE_AM (fun _ _ => true) (fun _ => true)
        [⟨1, 7, .active, some 0, 1000, 0⟩]
        (processDueDateReminders 0 NINE_AM (fun _ _ => true) (fun _ => true)
          [⟨1, 7, .active, some 0, 1000, 0⟩]
          [mkPenaltyLedger 1 7 1 1000 0]).ledgers =
      ⟨(processDueDateReminders 0 NINE_AM (fun _ _ => true) (fun _ => true)
          [⟨1, 7, .active, some 0, 1000, 0⟩]
          [mkPenaltyLedger 1 7 1 1000 0]).ledgers, [], [], [], none⟩ ∧
    processOverdueEmis DAY (DAY + NINE_AM) (fun _ _ => true) (fun _ => true)
        (processOverdueEmis DAY (DAY + NINE_AM) (fun _ _ => true)
          (fun _ => true) [mkPenaltyLedger 1 7 1 1000 0]).ledgers =
      ⟨(processOverdueEmis DAY (DAY + NINE_AM) (fun _ _ => true)
          (fun _ => true) [mkPenaltyLedger 1 7 1 1000 0]).ledgers,
        [], [], [], none⟩ :=
  ⟨c4_amended_idempotency.2.1 0 NINE_AM NINE_AM (fun _ _ => true)
      (fun _ _ => true) [⟨1, 7, .active, some 0, 1000, 0⟩]
      [mkPenaltyLedger 1 7 1 1000 0]
      (by
        intro a ha hsel d hd
        simp only [List.mem_singleton] at ha
        subst ha
        cases hd
        exact ⟨mkPenaltyLedger 1 7 1 1000 0, List.mem_singleton_self _,
          by decide⟩),
    c4_amended_idempotency.2.2 DAY (DAY + NINE_AM) (fun _ _ => true)
      (fun _ _ => true) [mkPenaltyLedger 1 7 1 1000 0]
      (by norm_num [DAY, NINE_AM])
      (by
        intro e he
        simp only [List.mem_singleton] at he
        subst he
        rfl)⟩
